import Mathlib

/-!
# oai-client: a shallow embedding of the OAI-PMH harvester

Embedded sources: `src/oai-client.c` (byte buffer, `docinfo_t`, URL builders,
`fetch_records`, `main`), `src/xmlparse.c` (`serialize`, `parse` and their
expat callbacks) and `src/transfer.c` (`fetch`).

Conventions of the embedding.

* A C string and a `(pointer, size)` byte run are both a `Str = List Char`; the
  terminating NUL of a C string is not part of the list.  XML names, attribute
  values and character data never contain a NUL.
* A nullable `char *` is an `Option Str`, a nullable `error_t *` an
  `Option error_t`.
* expat and libcurl are external.  One call of `XML_Parse` is an `XMLRun`: the
  callbacks it makes, in order, and the status it returns.  An `XMLRun` is a run
  of fewer than `2 ^ 31` events; this is a restriction of the type, not a property
  of expat.  The `int` counters of `docinfo_t` are modelled with two's complement
  wrap-around; what they do on a run of any length is stated on the event list
  itself (`parse_events`, `parse_stream`).
* `FILE *` output is the list of bytes written so far; `stderr` is a list of
  structured log lines (the time stamp is left out).
* `exit` and a null dereference end the computation: see `Step`.
-/

set_option maxRecDepth 8000

namespace OaiClient

abbrev Str := List Char

/-! ## Machine integers -/

/-- Two's complement reduction of an integer to the range of a 32 bit `int`. -/
def wrap32 (x : Int) : Int := (x + 2147483648) % 4294967296 - 2147483648

/-- The C expression `a + b` on `int` operands. -/
def int_add (a b : Int) : Int := wrap32 (a + b)

/-! ## `buffer_t` (oai-client.c 36-89) -/

/-- A `buffer_t`: `size` is the current length, `data` the allocated block. -/
structure buffer_t where
  size : Nat
  data : Str
deriving DecidableEq

def make_buffer : buffer_t := { size := 0, data := [] }

def buffer_from_string (str : Str) : buffer_t := { size := str.length, data := str }

/-- `realloc` to `dst->size + size` bytes keeps the first `dst->size` bytes of the
block, `memcpy` writes `src` right behind them. -/
def buffer_append (dst : buffer_t) (src : Str) : buffer_t :=
  { size := dst.size + src.length, data := dst.data.take dst.size ++ src }

def reset_buffer (buf : buffer_t) : buffer_t := { buf with size := 0 }

/-- The copy made by `buffer_to_string`, without its terminating NUL. -/
def buffer_to_string (buf : buffer_t) : Str := buf.data.take buf.size

/-! ## `error_t` and `docinfo_t` (oai-client.c 95-155) -/

structure error_t where
  code : Option Str
  message : Option Str
deriving DecidableEq

structure docinfo_t where
  nr_of_errors : Int
  nr_of_records : Int
  errors : List error_t
  token : Option Str
deriving DecidableEq

def make_error : error_t := { code := none, message := none }

def make_docinfo : docinfo_t :=
  { token := none, errors := [], nr_of_errors := 0, nr_of_records := 0 }

/-- The array is reallocated to `nr_of_errors` slots and the last slot is written. -/
def docinfo_add_error (docinfo : docinfo_t) (error : error_t) : docinfo_t :=
  let n := int_add docinfo.nr_of_errors 1
  { docinfo with
    nr_of_errors := n
    errors := docinfo.errors.take (n - 1).toNat ++ [error] }

/-! ## The expat interface -/

/-- One callback made by `XML_Parse`. -/
inductive XMLEvent where
  | startElement (name : Str) (atts : List (Str × Str))
  | endElement (name : Str)
  | characterData (str : Str)
deriving DecidableEq

/-- One call of `XML_Parse` on a whole document: the callbacks made and whether
the returned status is `XML_STATUS_OK`.  The type holds the runs of fewer than
`2 ^ 31` callbacks only; expat itself can make more. -/
structure XMLRun where
  events : List XMLEvent
  status_ok : Bool
  bounded : events.length < 2147483648

/-! ## The re-serializer (xmlparse.c 26-92) -/

/-- The body of the `switch` in `serialize_write_escape`, for one byte. -/
def serialize_write_escape_byte (file : Str) (c : Char) : Str :=
  if c = '<' then file ++ "&lt;".toList
  else if c = '&' then file ++ "&amp;".toList
  else if c = '"' then file ++ "&quot;".toList
  else if c = Char.ofNat 39 then file ++ "&apos;".toList
  else file ++ [c]

/-- The `for` loop of `serialize_write_escape` over `str[0 .. size)`. -/
def serialize_write_escape (file : Str) (str : Str) : Str :=
  str.foldl serialize_write_escape_byte file

/-- One turn of the attribute loop of `serialize_element_start_callback`. -/
def serialize_attribute (file : Str) (att : Str × Str) : Str :=
  serialize_write_escape (file ++ " ".toList ++ att.1 ++ "=\"".toList) att.2 ++ "\"".toList

def serialize_element_start_callback (userData : Str) (name : Str)
    (atts : List (Str × Str)) : Str :=
  let file := userData ++ "<".toList ++ name
  let file := match atts with
    | [] => file
    | _ :: _ => atts.foldl serialize_attribute file
  file ++ ">".toList

def serialize_element_end_callback (userData : Str) (name : Str) : Str :=
  userData ++ "</".toList ++ name ++ ">".toList

def serialize_cdata_callback (userData : Str) (str : Str) : Str :=
  serialize_write_escape userData str

/-- Dispatch of one event to the handlers registered by `serialize`. -/
def serialize_event (file : Str) : XMLEvent → Str
  | .startElement name atts => serialize_element_start_callback file name atts
  | .endElement name => serialize_element_end_callback file name
  | .characterData str => serialize_cdata_callback file str

/-- The bytes on the stream after the callbacks of one run. -/
def serialize_events (file : Str) (events : List XMLEvent) : Str :=
  events.foldl serialize_event file

/-! ## The response parser (xmlparse.c 96-203) -/

def PSTATE_CAPTURE_NONE : Nat := 0
def PSTATE_CAPTURE_ERROR : Nat := 1
def PSTATE_CAPTURE_TOKEN : Nat := 2

structure pstate_t where
  docinfo : docinfo_t
  cdata : buffer_t
  error : Option error_t
  state : Nat
deriving DecidableEq

/-- The state `parse` hands to expat: `make_pstate` with a fresh `docinfo` and
scratch buffer. -/
def make_pstate : pstate_t :=
  { docinfo := make_docinfo, cdata := make_buffer, error := none,
    state := PSTATE_CAPTURE_NONE }

def OAI_RECORD : Str := "http://www.openarchives.org/OAI/2.0/ record".toList
def OAI_ERROR : Str := "http://www.openarchives.org/OAI/2.0/ error".toList
def OAI_TOKEN : Str := "http://www.openarchives.org/OAI/2.0/ resumptionToken".toList

/-- One turn of the attribute loop in the `error` branch. -/
def parse_error_attribute (error : error_t) (att : Str × Str) : error_t :=
  if att.1 = "code".toList then { error with code := some att.2 } else error

def parse_element_start_callback (pstate : pstate_t) (name : Str)
    (atts : List (Str × Str)) : pstate_t :=
  if name = OAI_RECORD then
    { pstate with
      docinfo := { pstate.docinfo with
        nr_of_records := int_add pstate.docinfo.nr_of_records 1 } }
  else if name = OAI_ERROR then
    { pstate with
      error := some (atts.foldl parse_error_attribute make_error)
      state := PSTATE_CAPTURE_ERROR }
  else if name = OAI_TOKEN then
    { pstate with state := PSTATE_CAPTURE_TOKEN }
  else pstate

/-- The result is `none` when `pstate->error` is dereferenced while null. -/
def parse_element_end_callback (pstate : pstate_t) (_name : Str) : Option pstate_t :=
  if pstate.state = PSTATE_CAPTURE_TOKEN then
    some { pstate with
      docinfo := { pstate.docinfo with token := some (buffer_to_string pstate.cdata) }
      cdata := reset_buffer pstate.cdata
      state := PSTATE_CAPTURE_NONE }
  else if pstate.state = PSTATE_CAPTURE_ERROR then
    match pstate.error with
    | none => none
    | some error =>
      some { pstate with
        docinfo := docinfo_add_error pstate.docinfo
          { error with message := some (buffer_to_string pstate.cdata) }
        cdata := reset_buffer pstate.cdata
        error := none
        state := PSTATE_CAPTURE_NONE }
  else some pstate

def parse_cdata_callback (pstate : pstate_t) (str : Str) : pstate_t :=
  if pstate.state ≠ 0 then
    { pstate with cdata := buffer_append pstate.cdata str }
  else pstate

/-- Dispatch of one event to the handlers registered by `parse`. -/
def parse_event (pstate : pstate_t) : XMLEvent → Option pstate_t
  | .startElement name atts => some (parse_element_start_callback pstate name atts)
  | .endElement name => parse_element_end_callback pstate name
  | .characterData str => some (parse_cdata_callback pstate str)

/-- The parser state after the callbacks of one run, `none` after a null
dereference. -/
def parse_events : pstate_t → List XMLEvent → Option pstate_t
  | pstate, [] => some pstate
  | pstate, e :: es =>
    match parse_event pstate e with
    | none => none
    | some pstate => parse_events pstate es

/-! ## Process state, logging and termination -/

/-- One line written to `stderr` by `log_info` or `log_error`: the format used
and its arguments. -/
inductive LogLine where
  | info_get (url : Str)
  | info_found_records (n : Int)
  | info_found_token (token : Str)
  | error_protocol (code message : Option Str)
  | error_parse
deriving DecidableEq

/-- What the process has done so far: the bytes written to `handle`, the lines
written to `stderr` and the URLs handed to `curl_easy_perform`. -/
structure World where
  handle : Str
  stderr : List LogLine
  fetched : List Str
deriving DecidableEq

/-- How a call ends: it returns, or it calls `exit(EXIT_FAILURE)`, or it
dereferences a null pointer. -/
inductive Step (α : Type) where
  | ret (a : α) (w : World)
  | exit_failure (w : World)
  | null_deref (w : World)
deriving DecidableEq

/-- The process state a call ends in. -/
def Step.world {α : Type} : Step α → World
  | .ret _ w => w
  | .exit_failure w => w
  | .null_deref w => w

def log_info (verbose : Bool) (line : LogLine) (w : World) : World :=
  if verbose then { w with stderr := w.stderr ++ [line] } else w

def log_error (line : LogLine) (w : World) : World :=
  { w with stderr := w.stderr ++ [line] }

def serialize (document : XMLRun) (w : World) : Step Unit :=
  let w := { w with handle := serialize_events w.handle document.events }
  if document.status_ok then .ret () w
  else .exit_failure (log_error .error_parse w)

def parse (document : XMLRun) (w : World) : Step docinfo_t :=
  match parse_events make_pstate document.events with
  | none => .null_deref w
  | some pstate =>
    if document.status_ok then .ret pstate.docinfo w
    else .exit_failure (log_error .error_parse w)

/-! ## Transport (transfer.c) -/

/-- A response body as the two parsers see it: `ns` is the run of the
namespace aware parser created in `parse`, `plain` the run of the parser
created in `serialize`.  Both parsers are given the one buffer that `fetch`
filled, so the second accepts what the first accepts (`one_document`); the
structure does not impose it. -/
structure body_t where
  ns : XMLRun
  plain : XMLRun

/-- The answer to one GET: `none` when `curl_easy_perform` reports an error. -/
abbrev Response := Option body_t

def fetch (verbose : Bool) (response : Response) (url : Str) (w : World) : Step body_t :=
  let w := log_info verbose (.info_get url) w
  let w := { w with fetched := w.fetched ++ [url] }
  match response with
  | none => .exit_failure w
  | some body => .ret body w

/-! ## URL builders (oai-client.c 256-289) -/

def build_resume_url (baseUrl resumptionToken : Str) : Str :=
  let url := baseUrl
  let url := url ++ "?verb=ListRecords&resumptionToken=".toList
  let url := url ++ resumptionToken
  url

def build_request_url (baseUrl metadataPrefix : Str) (from_ until_ set : Option Str) : Str :=
  let url := baseUrl
  let url := url ++ "?verb=ListRecords&metadataPrefix=".toList
  let url := url ++ metadataPrefix
  let url := match until_ with
    | some s => url ++ "&until=".toList ++ s
    | none => url
  let url := match from_ with
    | some s => url ++ "&from=".toList ++ s
    | none => url
  let url := match set with
    | some s => url ++ "&set=".toList ++ s
    | none => url
  url

/-! ## The harvest loop (oai-client.c 291-348) -/

/-- The `for` loop over `docinfo->errors[0 .. nr_of_errors)`. -/
def log_protocol_errors (docinfo : docinfo_t) (w : World) : World :=
  (docinfo.errors.take docinfo.nr_of_errors.toNat).foldl
    (fun w err => log_error (.error_protocol err.code err.message) w) w

def fetch_records (verbose : Bool) (response : Response) (url : Str) (w : World) :
    Step (Option Str) :=
  match fetch verbose response url w with
  | .exit_failure w => .exit_failure w
  | .null_deref w => .null_deref w
  | .ret body w =>
    match parse body.ns w with
    | .exit_failure w => .exit_failure w
    | .null_deref w => .null_deref w
    | .ret docinfo w =>
      let w := if 0 < docinfo.nr_of_errors then log_protocol_errors docinfo w else w
      let serialized :=
        if 0 < docinfo.nr_of_records then
          serialize body.plain (log_info verbose (.info_found_records docinfo.nr_of_records) w)
        else .ret () w
      match serialized with
      | .exit_failure w => .exit_failure w
      | .null_deref w => .null_deref w
      | .ret _ w =>
        match docinfo.token with
        | some token => .ret (some token) (log_info verbose (.info_found_token token) w)
        | none => .ret none w

/-- The command line after `parse_commandline` and `validate_arguments`. -/
structure Config where
  baseUrl : Str
  metadataPrefix : Str
  from_ : Option Str
  until_ : Option Str
  set : Option Str
  verbose : Bool

/-- How the process stands when the given responses are used up: it has ended,
or it is `pending`, about to fetch `url` and waiting for a further response. -/
inductive Outcome where
  | exit_success (w : World)
  | exit_failure (w : World)
  | null_deref (w : World)
  | pending (url : Str) (w : World)
deriving DecidableEq

def RECORDS_OPEN : Str := "<records xmlns='tag:dmaus@dmaus.name,2018:oai-client'>".toList
def RECORDS_CLOSE : Str := "</records>".toList

/-- The `do ... while (url)` loop of `main` with what follows it; the i-th
fetch is answered by the i-th response. -/
def harvest_loop (cfg : Config) : List Response → Str → World → Outcome
  | [], url, w => .pending url w
  | response :: rest, url, w =>
    match fetch_records cfg.verbose response url w with
    | .exit_failure w => .exit_failure w
    | .null_deref w => .null_deref w
    | .ret (some token) w => harvest_loop cfg rest (build_resume_url cfg.baseUrl token) w
    | .ret none w => .exit_success { w with handle := w.handle ++ RECORDS_CLOSE }

def main (cfg : Config) (responses : List Response) : Outcome :=
  let w : World := { handle := RECORDS_OPEN, stderr := [], fetched := [] }
  let url := build_request_url cfg.baseUrl cfg.metadataPrefix cfg.from_ cfg.until_ cfg.set
  harvest_loop cfg responses url w

/-! ## Specification side: what the claims speak about -/

def OAI_NS : Str := "http://www.openarchives.org/OAI/2.0/".toList

/-- The name the namespace aware parser reports for local name `lname` in
namespace `ns`: the two joined by the separator given to `XML_ParserCreateNS`. -/
def qualified (ns lname : Str) : Str := ns ++ [' '] ++ lname

/-- A start-element event for `record` in the OAI-PMH namespace. -/
def is_oai_record_start : XMLEvent → Bool
  | .startElement name _ => decide (name = qualified OAI_NS "record".toList)
  | _ => false

/-- A start-element event for `resumptionToken` in the OAI-PMH namespace. -/
def is_oai_token_start : XMLEvent → Bool
  | .startElement name _ => decide (name = qualified OAI_NS "resumptionToken".toList)
  | _ => false

def is_capture_name (name : Str) : Bool :=
  decide (name = qualified OAI_NS "error".toList) ||
  decide (name = qualified OAI_NS "resumptionToken".toList)

/-- Events below the open elements `stack`: tags match, nothing follows the end
of the root, no attribute name occurs twice in one tag. -/
def well_nested : List Str → List XMLEvent → Bool
  | [], es => es.isEmpty
  | _ :: _, [] => false
  | top :: stack, .startElement name atts :: es =>
    decide (atts.map Prod.fst).Nodup && well_nested (name :: top :: stack) es
  | top :: stack, .endElement name :: es => decide (name = top) && well_nested stack es
  | top :: stack, .characterData _ :: es => well_nested (top :: stack) es

/-- The event stream of a well-formed document: one root element, well nested. -/
def well_formed_events : List XMLEvent → Bool
  | .startElement name atts :: es => decide (atts.map Prod.fst).Nodup && well_nested [name] es
  | _ => false

/-- The events of an element whose start tag has just been seen, up to its own
end tag; `depth` counts the child elements that are open. -/
def own_content : Nat → List XMLEvent → List XMLEvent
  | _, [] => []
  | depth, .startElement name atts :: es =>
    .startElement name atts :: own_content (depth + 1) es
  | 0, .endElement _ :: _ => []
  | depth + 1, .endElement name :: es => .endElement name :: own_content depth es
  | depth, .characterData str :: es => .characterData str :: own_content depth es

/-- All character data among the events, in order. -/
def character_content : List XMLEvent → Str
  | [] => []
  | .characterData str :: es => str ++ character_content es
  | _ :: es => character_content es

def attribute_value (key : Str) (atts : List (Str × Str)) : Option Str :=
  (atts.find? (fun att => att.1 == key)).map Prod.snd

/-- One `ProtocolError` per OAI `error` element, in document order: the `code`
attribute and the character data up to the element's own end tag. -/
def spec_errors : List XMLEvent → List error_t
  | [] => []
  | .startElement name atts :: es =>
    if name = qualified OAI_NS "error".toList then
      { code := attribute_value "code".toList atts,
        message := some (character_content (own_content 0 es)) } :: spec_errors es
    else spec_errors es
  | _ :: es => spec_errors es

/-- The character data of the (last) OAI `resumptionToken` element up to its own
end tag, `none` when there is no such element. -/
def spec_token : List XMLEvent → Option Str
  | [] => none
  | .startElement name _ :: es =>
    match spec_token es with
    | some t => some t
    | none =>
      if name = qualified OAI_NS "resumptionToken".toList then
        some (character_content (own_content 0 es))
      else none
  | _ :: es => spec_token es

/-- No OAI `error` or `resumptionToken` start tag among the events. -/
def no_capture_start : List XMLEvent → Bool
  | [] => true
  | .startElement name _ :: es => !is_capture_name name && no_capture_start es
  | _ :: es => no_capture_start es

/-- No OAI `error` or `resumptionToken` element lies inside another one. -/
def captures_not_nested : List XMLEvent → Bool
  | [] => true
  | .startElement name _ :: es =>
    (!is_capture_name name || no_capture_start (own_content 0 es)) && captures_not_nested es
  | _ :: es => captures_not_nested es

/-- The element just opened holds character data only: the next event that is
not character data is an end tag. -/
def text_only : List XMLEvent → Bool
  | .characterData _ :: es => text_only es
  | .endElement _ :: _ => true
  | _ => false

/-- Every OAI `error` and `resumptionToken` element holds character data only. -/
def captures_flat : List XMLEvent → Bool
  | [] => true
  | .startElement name _ :: es => (!is_capture_name name || text_only es) && captures_flat es
  | _ :: es => captures_flat es

/-- The escape table of the specification. -/
def ESCAPES : List (Char × Str) :=
  [('<', "&lt;".toList), ('&', "&amp;".toList), ('"', "&quot;".toList),
   (Char.ofNat 39, "&apos;".toList)]

/-- The image of one byte: its entry in the table, else the byte itself. -/
def escape_image (c : Char) : Str := (ESCAPES.lookup c).getD [c]

def escape (s : Str) : Str := s.flatMap escape_image

def attribute_image (att : Str × Str) : Str :=
  " ".toList ++ att.1 ++ "=\"".toList ++ escape att.2 ++ "\"".toList

def event_image : XMLEvent → Str
  | .startElement name atts => "<".toList ++ name ++ atts.flatMap attribute_image ++ ">".toList
  | .endElement name => "</".toList ++ name ++ ">".toList
  | .characterData str => escape str

/-- A query parameter of the request URL: nothing when the value is absent. -/
def url_parameter (key : Str) : Option Str → Str
  | some value => key ++ value
  | none => []

/-- The response makes `fetch_records` return `tok`. -/
def returns_token (verbose : Bool) (r : Response) (tok : Option Str) : Prop :=
  ∀ url w, ∃ w2, fetch_records verbose r url w = .ret tok w2

/-- What one page adds to the output: its whole re-serialization when it holds a
record, nothing otherwise. -/
def page_output (r : Response) : Str :=
  match r with
  | none => []
  | some body =>
    if 0 < body.ns.events.countP is_oai_record_start then
      serialize_events [] body.plain.events
    else []

/-! ### Auxiliary notions used in the proofs -/

/-- The character data at the head of the events. -/
def leading_text : List XMLEvent → Str
  | .characterData str :: es => str ++ leading_text es
  | _ => []

def atts_unique : List XMLEvent → Bool
  | [] => true
  | .startElement _ atts :: es => decide (atts.map Prod.fst).Nodup && atts_unique es
  | _ :: es => atts_unique es

/-- The parser cannot dereference a null `error`. -/
def pstate_safe (p : pstate_t) : Prop :=
  p.state = PSTATE_CAPTURE_ERROR → p.error ≠ none

/-- The error that the capture in progress will append. -/
def pending_error (p : pstate_t) (es : List XMLEvent) : List error_t :=
  if p.state = PSTATE_CAPTURE_ERROR then
    match p.error with
    | some e => [{ e with message := some (buffer_to_string p.cdata ++ leading_text es) }]
    | none => []
  else []

/-- The token the parser ends with. -/
def token_after (p : pstate_t) (es : List XMLEvent) : Option Str :=
  match spec_token es with
  | some t => some t
  | none =>
    if p.state = PSTATE_CAPTURE_TOKEN then some (buffer_to_string p.cdata ++ leading_text es)
    else p.docinfo.token

def capture_ready (p : pstate_t) (es : List XMLEvent) : Prop :=
  (p.state = PSTATE_CAPTURE_NONE ∧ p.cdata.size = 0) ∨
  (p.state = PSTATE_CAPTURE_TOKEN ∧ text_only es = true) ∨
  (p.state = PSTATE_CAPTURE_ERROR ∧ p.error ≠ none ∧ text_only es = true)

/-! ## Specification side: well-formed XML

A scanner for the part of XML 1.0 that the re-serializer can write: elements with
start and end tags, attributes in either kind of quotes, character data and the
five predefined entity references.  Names are checked against the ASCII part of
the `Name` production, every byte from 128 on counting as a name character. -/

def is_space (c : Char) : Bool :=
  c = ' ' || c = Char.ofNat 9 || c = Char.ofNat 10 || c = Char.ofNat 13

def is_name_start (c : Char) : Bool :=
  (65 ≤ c.toNat && c.toNat ≤ 90) || (97 ≤ c.toNat && c.toNat ≤ 122) ||
  c.toNat = 95 || c.toNat = 58 || 128 ≤ c.toNat

def is_name_char (c : Char) : Bool :=
  is_name_start c || (48 ≤ c.toNat && c.toNat ≤ 57) || c.toNat = 45 || c.toNat = 46

/-- An XML name: a name start character followed by name characters. -/
def is_name : Str → Bool
  | [] => false
  | c :: cs => is_name_start c && cs.all is_name_char

/-- The names of the predefined entities. -/
def ENTITIES : List Str :=
  ["lt".toList, "gt".toList, "amp".toList, "quot".toList, "apos".toList]

/-- Where the scanner stands.  `content k`: in character data, `k` closing square
brackets (at most two counted) seen last; `reference v`: behind `&`, inside the
attribute value quoted by `v` or, for `none`, in character data. -/
inductive Mode where
  | content (rsqb : Nat)
  | reference (value : Option Char)
  | tag_open
  | start_name
  | end_name
  | tag_gap
  | att_name
  | att_eq
  | att_value (quote : Char)
  | tag_next
  | bad
deriving DecidableEq

/-- The scanner state: the open elements, the number of root elements begun, the
name and attribute names of the start tag being read, the name being read. -/
structure Scan where
  mode : Mode
  stack : List Str
  roots : Nat
  tag : Str
  keys : List Str
  acc : Str
deriving DecidableEq

def scan_init : Scan :=
  { mode := .content 0, stack := [], roots := 0, tag := [], keys := [], acc := [] }

def scan_fail (s : Scan) : Scan := { s with mode := .bad }

/-- The end of the start tag of `name`: a second root element is an error. -/
def open_element (s : Scan) (name : Str) : Scan :=
  match s.stack with
  | [] =>
    if s.roots = 0 then
      { mode := .content 0, stack := [name], roots := 1, tag := [], keys := [], acc := [] }
    else scan_fail s
  | top :: stack =>
    { mode := .content 0, stack := name :: top :: stack, roots := s.roots,
      tag := [], keys := [], acc := [] }

def scan_step (s : Scan) (c : Char) : Scan :=
  match s.mode with
  | .content k =>
    if c = '<' then { s with mode := .tag_open }
    else if s.stack = [] then (if is_space c then s else scan_fail s)
    else if c = '&' then { s with mode := .reference none, acc := [] }
    else if c = ']' then { s with mode := .content (min (k + 1) 2) }
    else if c = '>' then (if k = 2 then scan_fail s else { s with mode := .content 0 })
    else { s with mode := .content 0 }
  | .tag_open =>
    if c = '/' then { s with mode := .end_name, acc := [] }
    else if is_name_start c then { s with mode := .start_name, acc := [c] }
    else scan_fail s
  | .start_name =>
    if is_name_char c then { s with acc := s.acc ++ [c] }
    else if is_space c then { s with mode := .tag_gap, tag := s.acc, keys := [], acc := [] }
    else if c = '>' then open_element s s.acc
    else scan_fail s
  | .tag_gap =>
    if is_space c then s
    else if c = '>' then open_element s s.tag
    else if is_name_start c then { s with mode := .att_name, acc := [c] }
    else scan_fail s
  | .att_name =>
    if is_name_char c then { s with acc := s.acc ++ [c] }
    else if c = '=' then
      (if s.acc ∈ s.keys then scan_fail s
       else { s with mode := .att_eq, keys := s.acc :: s.keys, acc := [] })
    else scan_fail s
  | .att_eq =>
    if c = '"' ∨ c = Char.ofNat 39 then { s with mode := .att_value c } else scan_fail s
  | .att_value quote =>
    if c = quote then { s with mode := .tag_next }
    else if c = '<' then scan_fail s
    else if c = '&' then { s with mode := .reference (some quote), acc := [] }
    else s
  | .tag_next =>
    if is_space c then { s with mode := .tag_gap }
    else if c = '>' then open_element s s.tag
    else scan_fail s
  | .reference value =>
    if is_name_char c then { s with acc := s.acc ++ [c] }
    else if c = ';' then
      (if s.acc ∈ ENTITIES then
        match value with
        | none => { s with mode := .content 0, acc := [] }
        | some quote => { s with mode := .att_value quote, acc := [] }
       else scan_fail s)
    else scan_fail s
  | .end_name =>
    if is_name_char c then { s with acc := s.acc ++ [c] }
    else if c = '>' then
      match s.stack with
      | top :: stack =>
        if s.acc = top then { s with mode := .content 0, stack := stack, acc := [] }
        else scan_fail s
      | [] => scan_fail s
    else scan_fail s
  | .bad => s

def scan (s : Scan) (text : Str) : Scan := text.foldl scan_step s

/-- The text is one well-formed document: the scanner ends in character data
behind the end of the single root element. -/
def xml_well_formed (text : Str) : Bool :=
  let s := scan scan_init text
  (match s.mode with
   | .content _ => true
   | _ => false) && decide (s.stack = []) && decide (s.roots = 1)

/-- The closing square brackets counted after one more byte of character data,
`none` when the byte completes `]]>`. -/
def rsqb_step (k : Nat) (c : Char) : Option Nat :=
  if c = ']' then some (min (k + 1) 2)
  else if c = '>' then (if k = 2 then none else some 0)
  else some 0

def rsqb_run : Nat → Str → Option Nat
  | k, [] => some k
  | k, c :: cs =>
    match rsqb_step k c with
    | some k2 => rsqb_run k2 cs
    | none => none

/-- No run of character data, adjacent events taken together, contains `]]>`. -/
def text_free_of_cdend : Nat → List XMLEvent → Bool
  | _, [] => true
  | k, .characterData str :: es =>
    match rsqb_run k str with
    | some k2 => text_free_of_cdend k2 es
    | none => false
  | _, _ :: es => text_free_of_cdend 0 es

/-- Element and attribute names are XML names. -/
def names_valid : List XMLEvent → Bool
  | [] => true
  | .startElement name atts :: es =>
    is_name name && atts.all (fun att => is_name att.1) && names_valid es
  | .endElement name :: es => is_name name && names_valid es
  | .characterData _ :: es => names_valid es

/-- What the claim on well-formed output asks of the events the re-serializer
receives for one response. -/
def serializable (es : List XMLEvent) : Bool :=
  well_formed_events es && names_valid es && text_free_of_cdend 0 es

/-- The scanner state behind the start tag of `name`, read below the open
elements `S`. -/
def opened (S : List Str) (r : Nat) (name : Str) : Scan :=
  ⟨.content 0, name :: S, if S = [] then 1 else r, [], [], []⟩

/-! ## Concrete inputs -/

/-- A name in the OAI-PMH namespace as the namespace aware parser reports it. -/
def oai (lname : String) : Str := qualified OAI_NS lname.toList

def world0 : World := { handle := [], stderr := [], fetched := [] }

def example_config : Config :=
  { baseUrl := "http://example.org/oai".toList, metadataPrefix := "oai_dc".toList,
    from_ := none, until_ := none, set := none, verbose := true }

/-- A response with records at several depths, beside `record` elements of
another namespace and of none, inside all three capture modes. -/
def records_doc : XMLRun :=
  { events :=
      [.startElement (oai "OAI-PMH") [],
       .startElement (oai "record") [],
       .startElement (oai "metadata") [],
       .startElement "http://example.org/ns record".toList [],
       .startElement "record".toList [],
       .characterData "x".toList,
       .endElement "record".toList,
       .endElement "http://example.org/ns record".toList,
       .startElement (oai "record") [],
       .endElement (oai "record"),
       .endElement (oai "metadata"),
       .endElement (oai "record"),
       .startElement (oai "error") [],
       .startElement (oai "record") [],
       .endElement (oai "record"),
       .endElement (oai "error"),
       .startElement (oai "resumptionToken") [],
       .startElement (oai "record") [],
       .endElement (oai "record"),
       .endElement (oai "resumptionToken"),
       .endElement (oai "OAI-PMH")],
    status_ok := true,
    bounded := by decide }

/-- A page with one record and the resumption token `t`. -/
def token_body (t : Str) : body_t :=
  { ns :=
      { events :=
          [.startElement (oai "OAI-PMH") [],
           .startElement (oai "ListRecords") [],
           .startElement (oai "record") [],
           .characterData "r".toList,
           .endElement (oai "record"),
           .startElement (oai "resumptionToken") [],
           .characterData t,
           .endElement (oai "resumptionToken"),
           .endElement (oai "ListRecords"),
           .endElement (oai "OAI-PMH")],
        status_ok := true,
        bounded := by simp },
    plain :=
      { events :=
          [.startElement "OAI-PMH".toList [("xmlns".toList, OAI_NS)],
           .startElement "ListRecords".toList [],
           .startElement "record".toList [],
           .characterData "r".toList,
           .endElement "record".toList,
           .startElement "resumptionToken".toList [],
           .characterData t,
           .endElement "resumptionToken".toList,
           .endElement "ListRecords".toList,
           .endElement "OAI-PMH".toList],
        status_ok := true,
        bounded := by simp } }

/-- A last page: one record, no resumption token. -/
def final_body : body_t :=
  { ns :=
      { events :=
          [.startElement (oai "OAI-PMH") [],
           .startElement (oai "ListRecords") [],
           .startElement (oai "record") [],
           .characterData "s".toList,
           .endElement (oai "record"),
           .endElement (oai "ListRecords"),
           .endElement (oai "OAI-PMH")],
        status_ok := true,
        bounded := by decide },
    plain :=
      { events :=
          [.startElement "OAI-PMH".toList [("xmlns".toList, OAI_NS)],
           .startElement "ListRecords".toList [],
           .startElement "record".toList [],
           .characterData "s".toList,
           .endElement "record".toList,
           .endElement "ListRecords".toList,
           .endElement "OAI-PMH".toList],
        status_ok := true,
        bounded := by decide } }

/-- A page without records whose `resumptionToken` element is present and empty. -/
def empty_token_body : body_t :=
  { ns :=
      { events :=
          [.startElement (oai "OAI-PMH") [],
           .startElement (oai "ListRecords") [],
           .startElement (oai "resumptionToken") [],
           .endElement (oai "resumptionToken"),
           .endElement (oai "ListRecords"),
           .endElement (oai "OAI-PMH")],
        status_ok := true,
        bounded := by decide },
    plain :=
      { events :=
          [.startElement "OAI-PMH".toList [("xmlns".toList, OAI_NS)],
           .startElement "ListRecords".toList [],
           .startElement "resumptionToken".toList [],
           .endElement "resumptionToken".toList,
           .endElement "ListRecords".toList,
           .endElement "OAI-PMH".toList],
        status_ok := true,
        bounded := by decide } }

/-- A response holding `<error code="noRecordsMatch">no records</error>` and
nothing else. -/
def no_records_body : body_t :=
  { ns :=
      { events :=
          [.startElement (oai "OAI-PMH") [],
           .startElement (oai "error") [("code".toList, "noRecordsMatch".toList)],
           .characterData "no records".toList,
           .endElement (oai "error"),
           .endElement (oai "OAI-PMH")],
        status_ok := true,
        bounded := by decide },
    plain :=
      { events :=
          [.startElement "OAI-PMH".toList [("xmlns".toList, OAI_NS)],
           .startElement "error".toList [("code".toList, "noRecordsMatch".toList)],
           .characterData "no records".toList,
           .endElement "error".toList,
           .endElement "OAI-PMH".toList],
        status_ok := true,
        bounded := by decide } }

/-- A well-formed response whose `error` element has a child element:
`<error code="badArgument">a<detail>b</detail>c</error>`. -/
def error_child_doc : XMLRun :=
  { events :=
      [.startElement (oai "OAI-PMH") [],
       .startElement (oai "error") [("code".toList, "badArgument".toList)],
       .characterData "a".toList,
       .startElement (oai "detail") [],
       .characterData "b".toList,
       .endElement (oai "detail"),
       .characterData "c".toList,
       .endElement (oai "error"),
       .endElement (oai "OAI-PMH")],
    status_ok := true,
    bounded := by decide }

/-- A well-formed response whose `resumptionToken` element has a child element:
`<resumptionToken>ab<part/>cd</resumptionToken>`. -/
def token_child_doc : XMLRun :=
  { events :=
      [.startElement (oai "OAI-PMH") [],
       .startElement (oai "resumptionToken") [],
       .characterData "ab".toList,
       .startElement (oai "part") [],
       .endElement (oai "part"),
       .characterData "cd".toList,
       .endElement (oai "resumptionToken"),
       .endElement (oai "OAI-PMH")],
    status_ok := true,
    bounded := by decide }

/-- A response with two errors and a token, all holding character data only. -/
def flat_doc : XMLRun :=
  { events :=
      [.startElement (oai "OAI-PMH") [],
       .startElement (oai "error") [("code".toList, "badArgument".toList)],
       .characterData "first ".toList,
       .characterData "message".toList,
       .endElement (oai "error"),
       .startElement (oai "error") [],
       .endElement (oai "error"),
       .startElement (oai "resumptionToken") [("cursor".toList, "0".toList)],
       .characterData "abc".toList,
       .characterData "123".toList,
       .endElement (oai "resumptionToken"),
       .endElement (oai "OAI-PMH")],
    status_ok := true,
    bounded := by decide }

/-- A page with one record whose title is the text `]]>`, written in the response
as `]]&gt;`: the parser reports the two square brackets and the `>` of the entity
reference as character data. -/
def cdend_body : body_t :=
  { ns :=
      { events :=
          [.startElement (oai "record") [],
           .startElement (oai "title") [],
           .characterData "]]".toList,
           .characterData ">".toList,
           .endElement (oai "title"),
           .endElement (oai "record")],
        status_ok := true,
        bounded := by decide },
    plain :=
      { events :=
          [.startElement "record".toList [("xmlns".toList, OAI_NS)],
           .startElement "title".toList [],
           .characterData "]]".toList,
           .characterData ">".toList,
           .endElement "title".toList,
           .endElement "record".toList],
        status_ok := true,
        bounded := by decide } }

/-- A buffer that was filled and reset: its block still holds the old bytes. -/
def stale_buffer : buffer_t := reset_buffer (buffer_from_string "old text".toList)

/-- Events that leave the parser outside a capture, behind an error, a token and
a record with text. -/
def history_events : List XMLEvent :=
  [.startElement (oai "OAI-PMH") [],
   .startElement (oai "error") [("code".toList, "badArgument".toList)],
   .characterData "old error".toList,
   .endElement (oai "error"),
   .startElement (oai "resumptionToken") [],
   .characterData "old token".toList,
   .endElement (oai "resumptionToken"),
   .startElement (oai "record") [],
   .characterData "record text".toList,
   .endElement (oai "record")]

/-- The parser state behind `history_events`. -/
def history_state : pstate_t :=
  { docinfo := { nr_of_errors := 1, nr_of_records := 1,
                 errors := [{ code := some "badArgument".toList,
                              message := some "old error".toList }],
                 token := some "old token".toList },
    cdata := { size := 0, data := "old token".toList },
    error := none,
    state := PSTATE_CAPTURE_NONE }

/-- A page on which the parser of `parse` reports an error behind a record. -/
def parse_error_body : body_t :=
  { ns :=
      { events := [.startElement (oai "record") []],
        status_ok := false,
        bounded := by decide },
    plain :=
      { events := [.startElement "record".toList [("xmlns".toList, OAI_NS)]],
        status_ok := false,
        bounded := by decide } }

/-- A page with two errors, a record and the token `t1`. -/
def errors_body : body_t :=
  { ns :=
      { events :=
          [.startElement (oai "OAI-PMH") [],
           .startElement (oai "error") [("code".toList, "badArgument".toList)],
           .characterData "first".toList,
           .endElement (oai "error"),
           .startElement (oai "error") [],
           .characterData "second".toList,
           .endElement (oai "error"),
           .startElement (oai "record") [],
           .endElement (oai "record"),
           .startElement (oai "resumptionToken") [],
           .characterData "t1".toList,
           .endElement (oai "resumptionToken"),
           .endElement (oai "OAI-PMH")],
        status_ok := true,
        bounded := by decide },
    plain :=
      { events :=
          [.startElement "r".toList [],
           .endElement "r".toList],
        status_ok := true,
        bounded := by decide } }

/-- The same page as the parser of `parse` would see it without the errors. -/
def errors_removed_body : body_t :=
  { ns :=
      { events :=
          [.startElement (oai "OAI-PMH") [],
           .startElement (oai "record") [],
           .endElement (oai "record"),
           .startElement (oai "resumptionToken") [],
           .characterData "t1".toList,
           .endElement (oai "resumptionToken"),
           .endElement (oai "OAI-PMH")],
        status_ok := true,
        bounded := by decide },
    plain := errors_body.plain }

/-- A server that answers every request with a page carrying a token. -/
def endless_server (_i : Nat) : Response := some (token_body "more".toList)

/-- The events of `n` empty OAI `record` elements, one after the other. -/
def record_pairs : Nat → List XMLEvent
  | 0 => []
  | n + 1 => .startElement (oai "record") [] :: .endElement (oai "record") :: record_pairs n

/-- A well-formed response with `n` OAI `record` elements in its root element. -/
def records_response (n : Nat) : List XMLEvent :=
  .startElement (oai "OAI-PMH") [] :: (record_pairs n ++ [.endElement (oai "OAI-PMH")])

/-! ## Specification side: buffers, parser states, decoding -/

/-- The bytes a buffer holds: the first `size` bytes of its block. -/
def buffer_content (b : buffer_t) : Str := b.data.take b.size

/-- The length is within the allocated block. -/
def buffer_valid (b : buffer_t) : Prop := b.size ≤ b.data.length

/-- The block that `buffer_to_string` allocates and fills, `1 + size` bytes: the
copy of `data[0 .. size)` and the NUL written behind it. -/
def buffer_to_string_block (buf : buffer_t) : Str :=
  buf.data.take buf.size ++ [Char.ofNat 0]

/-- A parser state that `parse` can be in: the state after the callbacks for
some sequence of events, begun in the initial state. -/
def reachable (p : pstate_t) : Prop :=
  ∃ evs, parse_events make_pstate evs = some p

/-- An event that leaves a capture in progress as it is: character data, or the
start tag of an element other than OAI `error` and `resumptionToken`. -/
def continues_capture : XMLEvent → Bool
  | .startElement name _ => !is_capture_name name
  | .endElement _ => false
  | .characterData _ => true

/-- The four references written by the re-serializer. -/
def REFERENCES : List Str :=
  ["&lt;".toList, "&amp;".toList, "&quot;".toList, "&apos;".toList]

/-- Decoding of the four references, every other byte kept. -/
def unescape : Str → Str
  | '&' :: 'l' :: 't' :: ';' :: rest => '<' :: unescape rest
  | '&' :: 'a' :: 'm' :: 'p' :: ';' :: rest => '&' :: unescape rest
  | '&' :: 'q' :: 'u' :: 'o' :: 't' :: ';' :: rest => '"' :: unescape rest
  | '&' :: 'a' :: 'p' :: 'o' :: 's' :: ';' :: rest => Char.ofNat 39 :: unescape rest
  | c :: rest => c :: unescape rest
  | [] => []

/-- What a call returned, `none` when it ended the process. -/
def Step.returned {α : Type} : Step α → Option α
  | .ret a _ => some a
  | _ => none

/-- The call ended the process with `exit(EXIT_FAILURE)`. -/
def Step.failed {α : Type} : Step α → Bool
  | .exit_failure _ => true
  | _ => false

/-- The log line of one protocol error. -/
def protocol_error_line (err : error_t) : LogLine :=
  .error_protocol err.code err.message

/-- A response that is fatal: the transport fails, or the parser of `parse`
reports an error, or `serialize` is reached and its parser reports an error. -/
def fatal (r : Response) : Bool :=
  match r with
  | none => true
  | some body =>
    !body.ns.status_ok ||
    (decide (0 < body.ns.events.countP is_oai_record_start) && !body.plain.status_ok)

/-- The function `parse` on the callbacks and the status of a run of any length. -/
def parse_stream (events : List XMLEvent) (status_ok : Bool) (w : World) : Step docinfo_t :=
  match parse_events make_pstate events with
  | none => .null_deref w
  | some pstate =>
    if status_ok then .ret pstate.docinfo w
    else .exit_failure (log_error .error_parse w)

/-- The two runs of a body come from one buffer: the parser of `serialize`, which
does no namespace processing, accepts whatever the parser of `parse` accepts. -/
def one_document (body : body_t) : Bool :=
  !body.ns.status_ok || body.plain.status_ok

/-- The XML parser reports an error for the page, in `parse` or in `serialize`. -/
def parser_error (body : body_t) : Bool :=
  !body.ns.status_ok || !body.plain.status_ok

/-- The transport reports a failure for the fetch, or the XML parser reports an
error for the page. -/
def fetch_fails (r : Response) : Bool :=
  match r with
  | none => true
  | some body => parser_error body

/-! ### Auxiliary notions used in the proofs, second part -/

/-- What holds of every parser state that can be reached. -/
def pstate_inv (p : pstate_t) : Prop :=
  (p.state = PSTATE_CAPTURE_NONE ∨ p.state = PSTATE_CAPTURE_ERROR ∨
    p.state = PSTATE_CAPTURE_TOKEN) ∧
  (p.state = PSTATE_CAPTURE_ERROR → p.error ≠ none) ∧
  (p.state = PSTATE_CAPTURE_NONE → p.cdata.size = 0) ∧
  p.cdata.size ≤ p.cdata.data.length

/-- The part of `fetch_records` behind the call of `parse`. -/
def after_parse (verbose : Bool) (body : body_t) (docinfo : docinfo_t) (w : World) :
    Step (Option Str) :=
  let w := if 0 < docinfo.nr_of_errors then log_protocol_errors docinfo w else w
  let serialized :=
    if 0 < docinfo.nr_of_records then
      serialize body.plain (log_info verbose (.info_found_records docinfo.nr_of_records) w)
    else .ret () w
  match serialized with
  | .exit_failure w => .exit_failure w
  | .null_deref w => .null_deref w
  | .ret _ w =>
    match docinfo.token with
    | some token => .ret (some token) (log_info verbose (.info_found_token token) w)
    | none => .ret none w

/-- The process state in which `fetch` returns. -/
def after_fetch (verbose : Bool) (url : Str) (w : World) : World :=
  { log_info verbose (.info_get url) w with
    fetched := (log_info verbose (.info_get url) w).fetched ++ [url] }

/-! ## Lemmas -/

theorem OAI_ERROR_eq : OAI_ERROR = qualified OAI_NS "error".toList := by decide
theorem OAI_TOKEN_eq : OAI_TOKEN = qualified OAI_NS "resumptionToken".toList := by decide
theorem OAI_RECORD_eq : OAI_RECORD = qualified OAI_NS "record".toList := by decide

theorem buffer_to_string_append (b : buffer_t) (s : Str) (h : b.size ≤ b.data.length) :
    buffer_to_string (buffer_append b s) = buffer_to_string b ++ s := by
  simp only [buffer_to_string, buffer_append]
  have hl : (List.take b.size b.data).length = b.size := by simp [h]
  rw [List.take_append_eq_append_take, hl]
  simp

theorem buffer_append_ok (b : buffer_t) (s : Str) (h : b.size ≤ b.data.length) :
    (buffer_append b s).size ≤ (buffer_append b s).data.length := by
  simp [buffer_append, h]

theorem text_only_content (es : List XMLEvent) (h : text_only es = true) :
    character_content (own_content 0 es) = leading_text es := by
  induction es with
  | nil => simp [text_only] at h
  | cons e es ih =>
    cases e with
    | startElement n a => simp [text_only] at h
    | endElement n => simp [own_content, character_content, leading_text]
    | characterData s =>
      simp only [text_only] at h
      simp [own_content, character_content, leading_text, ih h]

theorem error_attributes_skip (atts : List (Str × Str)) : ∀ e : error_t,
    (∀ att ∈ atts, att.1 ≠ "code".toList) → atts.foldl parse_error_attribute e = e := by
  induction atts with
  | nil => intro e _; rfl
  | cons a as ih =>
    intro e h
    have ha : a.1 ≠ "code".toList := h a (by simp)
    simp only [List.foldl_cons, parse_error_attribute, ha, if_false]
    exact ih e (fun att hatt => h att (by simp [hatt]))

theorem error_attributes_code (atts : List (Str × Str)) : ∀ e : error_t,
    (atts.map Prod.fst).Nodup → e.code = none →
    (atts.foldl parse_error_attribute e).code = attribute_value "code".toList atts := by
  induction atts with
  | nil => intro e _ he; simpa [attribute_value] using he
  | cons a as ih =>
    intro e hn he
    simp only [List.map_cons, List.nodup_cons] at hn
    by_cases ha : a.1 = "code".toList
    · have hskip : ∀ att ∈ as, att.1 ≠ "code".toList := by
        intro att hatt hc
        exact hn.1 (by rw [ha, ← hc]; exact List.mem_map_of_mem _ hatt)
      simp only [List.foldl_cons, parse_error_attribute, ha, if_true]
      rw [error_attributes_skip as _ hskip]
      simp [attribute_value, List.find?, ha]
    · simp only [List.foldl_cons, parse_error_attribute, ha, if_false]
      rw [ih e hn.2 he]
      have : (a.1 == "code".toList) = false := by simpa using ha
      simp only [attribute_value, List.find?_cons, this]

theorem wrap32_of_range (x : Int) (h0 : 0 ≤ x) (h1 : x < 2147483648) : wrap32 x = x := by
  unfold wrap32
  omega

theorem parse_event_records (p : pstate_t) (e : XMLEvent) (hs : pstate_safe p)
    (h0 : 0 ≤ p.docinfo.nr_of_records) (h1 : p.docinfo.nr_of_records + 1 < 2147483648) :
    ∃ q, parse_event p e = some q ∧ pstate_safe q ∧
      q.docinfo.nr_of_records
        = p.docinfo.nr_of_records + (if is_oai_record_start e then 1 else 0) := by
  cases e with
  | startElement name atts =>
    refine ⟨_, rfl, ?_, ?_⟩
    · unfold parse_element_start_callback pstate_safe
      split_ifs <;> simp_all [pstate_safe, PSTATE_CAPTURE_ERROR, PSTATE_CAPTURE_TOKEN]
    · unfold parse_element_start_callback
      simp only [is_oai_record_start, ← OAI_RECORD_eq]
      by_cases hn : name = OAI_RECORD
      · simp [hn, int_add, wrap32_of_range _ (by omega) h1]
      · simp only [hn, if_false, decide_False]
        split_ifs <;> simp_all
  | endElement name =>
    simp only [parse_event, parse_element_end_callback, is_oai_record_start]
    by_cases ht : p.state = PSTATE_CAPTURE_TOKEN
    · simp [ht, pstate_safe, PSTATE_CAPTURE_NONE, PSTATE_CAPTURE_ERROR]
    · by_cases he : p.state = PSTATE_CAPTURE_ERROR
      · have := hs he
        cases hpe : p.error with
        | none => exact absurd hpe this
        | some err =>
          simp [he, hpe, pstate_safe, PSTATE_CAPTURE_NONE, PSTATE_CAPTURE_ERROR,
            PSTATE_CAPTURE_TOKEN, docinfo_add_error]
      · simp [ht, he, hs]
  | characterData str =>
    refine ⟨_, rfl, ?_, ?_⟩
    · unfold parse_cdata_callback pstate_safe
      split_ifs <;> simp_all [pstate_safe]
    · unfold parse_cdata_callback
      simp only [is_oai_record_start]
      split_ifs <;> simp_all

theorem parse_events_records (evs : List XMLEvent) : ∀ (p : pstate_t), pstate_safe p →
    0 ≤ p.docinfo.nr_of_records →
    p.docinfo.nr_of_records + evs.length < 2147483648 →
    ∃ q, parse_events p evs = some q ∧ pstate_safe q ∧
      q.docinfo.nr_of_records = p.docinfo.nr_of_records + evs.countP is_oai_record_start := by
  induction evs with
  | nil => intro p hs _ _; exact ⟨p, rfl, hs, by simp⟩
  | cons e es ih =>
    intro p hs h0 h1
    simp only [List.length_cons, Nat.cast_add, Nat.cast_one] at h1
    obtain ⟨q, hq, hqs, hqn⟩ := parse_event_records p e hs h0 (by omega)
    have hq0 : 0 ≤ q.docinfo.nr_of_records := by rw [hqn]; split_ifs <;> omega
    have hq1 : q.docinfo.nr_of_records + es.length < 2147483648 := by
      rw [hqn]; split_ifs <;> omega
    obtain ⟨r, hr, hrs, hrn⟩ := ih q hqs hq0 hq1
    refine ⟨r, ?_, hrs, ?_⟩
    · simp [parse_events, hq, hr]
    · rw [hrn, hqn, List.countP_cons]
      split_ifs <;> simp
      omega

theorem write_escape_byte_eq (file : Str) (c : Char) :
    serialize_write_escape_byte file c = file ++ escape_image c := by
  unfold serialize_write_escape_byte escape_image ESCAPES
  by_cases h1 : c = '<'
  · subst h1; rfl
  by_cases h2 : c = '&'
  · subst h2; rfl
  by_cases h3 : c = '"'
  · subst h3; rfl
  by_cases h4 : c = Char.ofNat 39
  · subst h4; rfl
  have e1 : (c == '<') = false := by simpa using h1
  have e2 : (c == '&') = false := by simpa using h2
  have e3 : (c == '"') = false := by simpa using h3
  have e4 : (c == Char.ofNat 39) = false := by simpa using h4
  simp [h1, h2, h3, h4, List.lookup, e1, e2, e3, e4]

theorem write_escape_eq (str : Str) : ∀ file : Str,
    serialize_write_escape file str = file ++ escape str := by
  induction str with
  | nil => intro file; simp [serialize_write_escape, escape]
  | cons c cs ih =>
    intro file
    have := ih (serialize_write_escape_byte file c)
    simp only [serialize_write_escape, List.foldl_cons] at this ⊢
    rw [this, write_escape_byte_eq]
    simp [escape]

theorem attribute_eq (file : Str) (att : Str × Str) :
    serialize_attribute file att = file ++ attribute_image att := by
  simp [serialize_attribute, attribute_image, write_escape_eq]

theorem attributes_eq (atts : List (Str × Str)) : ∀ file : Str,
    atts.foldl serialize_attribute file = file ++ atts.flatMap attribute_image := by
  induction atts with
  | nil => intro file; simp
  | cons a as ih => intro file; simp [ih, attribute_eq]

theorem element_start_eq (file name : Str) (atts : List (Str × Str)) :
    serialize_element_start_callback file name atts
      = file ++ "<".toList ++ name ++ atts.flatMap attribute_image ++ ">".toList := by
  unfold serialize_element_start_callback
  cases atts with
  | nil => simp
  | cons a as => simp only [attributes_eq]

theorem event_eq (file : Str) (e : XMLEvent) :
    serialize_event file e = file ++ event_image e := by
  cases e with
  | startElement name atts => simp [serialize_event, event_image, element_start_eq]
  | endElement name => simp [serialize_event, event_image, serialize_element_end_callback]
  | characterData str => simp [serialize_event, event_image, serialize_cdata_callback, write_escape_eq]

theorem events_eq (evs : List XMLEvent) : ∀ file : Str,
    serialize_events file evs = file ++ evs.flatMap event_image := by
  induction evs with
  | nil => intro file; simp [serialize_events]
  | cons e es ih =>
    intro file
    have := ih (serialize_event file e)
    simp only [serialize_events, List.foldl_cons] at this ⊢
    rw [this, event_eq]
    simp

theorem add_error_eq (d : docinfo_t) (e : error_t)
    (hn : d.nr_of_errors = (d.errors.length : Int)) (hb : d.errors.length + 1 < 2147483648) :
    docinfo_add_error d e =
      { d with nr_of_errors := (d.errors.length : Int) + 1, errors := d.errors ++ [e] } := by
  have hw : int_add d.nr_of_errors 1 = (d.errors.length : Int) + 1 := by
    rw [hn]; unfold int_add wrap32; omega
  simp only [docinfo_add_error, hw]
  congr 1
  simp

theorem parse_events_flat (es : List XMLEvent) : ∀ p : pstate_t,
    p.cdata.size ≤ p.cdata.data.length →
    p.docinfo.nr_of_errors = (p.docinfo.errors.length : Int) →
    p.docinfo.errors.length + es.length < 2147483648 →
    atts_unique es = true → captures_flat es = true → capture_ready p es →
    ∃ q, parse_events p es = some q ∧
      q.docinfo.errors = p.docinfo.errors ++ pending_error p es ++ spec_errors es ∧
      q.docinfo.token = token_after p es ∧
      q.docinfo.nr_of_errors = (q.docinfo.errors.length : Int) := by
  induction es with
  | nil =>
    intro p _ hn _ _ _ hr
    refine ⟨p, rfl, ?_, ?_, hn⟩
    · rcases hr with ⟨hs, _⟩ | ⟨_, ht⟩ | ⟨_, _, ht⟩
      · simp [pending_error, hs, spec_errors, PSTATE_CAPTURE_NONE, PSTATE_CAPTURE_ERROR]
      · simp [text_only] at ht
      · simp [text_only] at ht
    · rcases hr with ⟨hs, _⟩ | ⟨_, ht⟩ | ⟨_, _, ht⟩
      · simp [token_after, hs, spec_token, PSTATE_CAPTURE_NONE, PSTATE_CAPTURE_TOKEN]
      · simp [text_only] at ht
      · simp [text_only] at ht
  | cons e es ih =>
    intro p hbuf hn hb hu hf hr
    simp only [List.length_cons] at hb
    cases e with
    | characterData str =>
      simp only [atts_unique, captures_flat] at hu hf
      rcases hr with ⟨hs, hz⟩ | ⟨hs, ht⟩ | ⟨hs, he, ht⟩
      · obtain ⟨q, hq, hqe, hqt, hqn⟩ := ih p hbuf hn (by omega) hu hf (Or.inl ⟨hs, hz⟩)
        refine ⟨q, ?_, ?_, ?_, hqn⟩
        · simpa [parse_events, parse_event, parse_cdata_callback, hs, PSTATE_CAPTURE_NONE] using hq
        · simpa [pending_error, hs, spec_errors, PSTATE_CAPTURE_NONE, PSTATE_CAPTURE_ERROR]
            using hqe
        · simpa [token_after, hs, spec_token, PSTATE_CAPTURE_NONE, PSTATE_CAPTURE_TOKEN]
            using hqt
      · simp only [text_only] at ht
        obtain ⟨q, hq, hqe, hqt, hqn⟩ :=
          ih { p with cdata := buffer_append p.cdata str } (buffer_append_ok _ _ hbuf) hn
            (by simpa using (by omega : p.docinfo.errors.length + es.length < 2147483648))
            hu hf (Or.inr (Or.inl ⟨hs, ht⟩))
        refine ⟨q, ?_, ?_, ?_, hqn⟩
        · simpa [parse_events, parse_event, parse_cdata_callback, hs, PSTATE_CAPTURE_TOKEN] using hq
        · simpa [pending_error, hs, spec_errors, PSTATE_CAPTURE_TOKEN, PSTATE_CAPTURE_ERROR]
            using hqe
        · simpa [token_after, hs, spec_token, leading_text, buffer_to_string_append _ _ hbuf]
            using hqt
      · simp only [text_only] at ht
        obtain ⟨q, hq, hqe, hqt, hqn⟩ :=
          ih { p with cdata := buffer_append p.cdata str } (buffer_append_ok _ _ hbuf) hn
            (by simpa using (by omega : p.docinfo.errors.length + es.length < 2147483648))
            hu hf (Or.inr (Or.inr ⟨hs, he, ht⟩))
        refine ⟨q, ?_, ?_, ?_, hqn⟩
        · simpa [parse_events, parse_event, parse_cdata_callback, hs, PSTATE_CAPTURE_ERROR] using hq
        · simpa [pending_error, hs, spec_errors, leading_text,
            buffer_to_string_append _ _ hbuf] using hqe
        · simpa [token_after, hs, spec_token, PSTATE_CAPTURE_TOKEN, PSTATE_CAPTURE_ERROR]
            using hqt
    | endElement name =>
      simp only [atts_unique, captures_flat] at hu hf
      rcases hr with ⟨hs, hz⟩ | ⟨hs, _⟩ | ⟨hs, he, _⟩
      · obtain ⟨q, hq, hqe, hqt, hqn⟩ := ih p hbuf hn (by omega) hu hf (Or.inl ⟨hs, hz⟩)
        refine ⟨q, ?_, ?_, ?_, hqn⟩
        · simpa [parse_events, parse_event, parse_element_end_callback, hs, PSTATE_CAPTURE_NONE,
            PSTATE_CAPTURE_TOKEN, PSTATE_CAPTURE_ERROR] using hq
        · simpa [pending_error, hs, spec_errors, PSTATE_CAPTURE_NONE, PSTATE_CAPTURE_ERROR]
            using hqe
        · simpa [token_after, hs, spec_token, PSTATE_CAPTURE_NONE, PSTATE_CAPTURE_TOKEN]
            using hqt
      · obtain ⟨q, hq, hqe, hqt, hqn⟩ :=
          ih { p with
               docinfo := { p.docinfo with token := some (buffer_to_string p.cdata) }
               cdata := reset_buffer p.cdata
               state := PSTATE_CAPTURE_NONE }
            (by simp [reset_buffer]) hn
            (by simpa using (by omega : p.docinfo.errors.length + es.length < 2147483648))
            hu hf (Or.inl ⟨rfl, rfl⟩)
        refine ⟨q, ?_, ?_, ?_, hqn⟩
        · simpa [parse_events, parse_event, parse_element_end_callback, hs] using hq
        · simpa [pending_error, hs, spec_errors, PSTATE_CAPTURE_NONE, PSTATE_CAPTURE_TOKEN,
            PSTATE_CAPTURE_ERROR] using hqe
        · simpa [token_after, hs, spec_token, leading_text, PSTATE_CAPTURE_NONE,
            PSTATE_CAPTURE_TOKEN] using hqt
      · cases hpe : p.error with
        | none => exact absurd hpe he
        | some err =>
          have hadd := add_error_eq p.docinfo
            { err with message := some (buffer_to_string p.cdata) } hn (by omega)
          obtain ⟨q, hq, hqe, hqt, hqn⟩ :=
            ih { p with
                 docinfo := docinfo_add_error p.docinfo
                   { err with message := some (buffer_to_string p.cdata) }
                 cdata := reset_buffer p.cdata
                 error := none
                 state := PSTATE_CAPTURE_NONE }
              (by simp [reset_buffer]) (by simp [hadd])
              (by simp only [hadd, List.length_append, List.length_singleton]; omega)
              hu hf (Or.inl ⟨rfl, rfl⟩)
          refine ⟨q, ?_, ?_, ?_, hqn⟩
          · simpa [parse_events, parse_event, parse_element_end_callback, hs, hpe,
              PSTATE_CAPTURE_ERROR, PSTATE_CAPTURE_TOKEN] using hq
          · simpa [pending_error, hs, hpe, hadd, spec_errors, leading_text, PSTATE_CAPTURE_NONE,
              PSTATE_CAPTURE_ERROR] using hqe
          · simpa [token_after, hs, hadd, spec_token, PSTATE_CAPTURE_NONE, PSTATE_CAPTURE_TOKEN,
              PSTATE_CAPTURE_ERROR] using hqt
    | startElement name atts =>
      simp only [atts_unique, captures_flat, Bool.and_eq_true, decide_eq_true_eq] at hu hf
      rcases hr with ⟨hs, hz⟩ | ⟨_, ht⟩ | ⟨_, _, ht⟩
      · have hempty : buffer_to_string p.cdata = [] := by simp [buffer_to_string, hz]
        by_cases h1 : name = OAI_RECORD
        · obtain ⟨q, hq, hqe, hqt, hqn⟩ :=
            ih { p with docinfo := { p.docinfo with
                   nr_of_records := int_add p.docinfo.nr_of_records 1 } }
              hbuf hn
              (by simpa using (by omega : p.docinfo.errors.length + es.length < 2147483648))
              hu.2 hf.2 (Or.inl ⟨hs, hz⟩)
          have ne1 : OAI_RECORD ≠ qualified OAI_NS "error".toList := by decide
          have ne2 : OAI_RECORD ≠ qualified OAI_NS "resumptionToken".toList := by decide
          refine ⟨q, ?_, ?_, ?_, hqn⟩
          · simpa [parse_events, parse_event, parse_element_start_callback, h1] using hq
          · simpa [pending_error, hs, h1, ne1, spec_errors, PSTATE_CAPTURE_NONE,
              PSTATE_CAPTURE_ERROR] using hqe
          · rw [hqt]
            simp only [token_after, spec_token, h1, ne2, if_false, hs]
            cases spec_token es <;> simp [PSTATE_CAPTURE_NONE, PSTATE_CAPTURE_TOKEN]
        · by_cases h2 : name = OAI_ERROR
          · have hto : text_only es = true := by
              have := hf.1
              simpa [is_capture_name, h2, OAI_ERROR_eq] using this
            obtain ⟨q, hq, hqe, hqt, hqn⟩ :=
              ih { p with
                   error := some (atts.foldl parse_error_attribute make_error)
                   state := PSTATE_CAPTURE_ERROR }
                hbuf hn
                (by simpa using (by omega : p.docinfo.errors.length + es.length < 2147483648))
                hu.2 hf.2 (Or.inr (Or.inr ⟨rfl, by simp, hto⟩))
            have hcode := error_attributes_code atts make_error hu.1 rfl
            have ne2 : OAI_ERROR ≠ qualified OAI_NS "resumptionToken".toList := by decide
            refine ⟨q, ?_, ?_, ?_, hqn⟩
            · simpa [parse_events, parse_event, parse_element_start_callback, h1, h2] using hq
            · rw [hqe]
              simp [pending_error, hs, h2, OAI_ERROR_eq, spec_errors, PSTATE_CAPTURE_NONE,
                PSTATE_CAPTURE_ERROR, hempty, text_only_content es hto, hcode]
            · rw [hqt]
              simp only [token_after, spec_token, h2, ne2, if_false, hs]
              cases spec_token es <;>
                simp [PSTATE_CAPTURE_NONE, PSTATE_CAPTURE_TOKEN, PSTATE_CAPTURE_ERROR]
          · by_cases h3 : name = OAI_TOKEN
            · have hto : text_only es = true := by
                have := hf.1
                simpa [is_capture_name, h3, OAI_TOKEN_eq] using this
              obtain ⟨q, hq, hqe, hqt, hqn⟩ :=
                ih { p with state := PSTATE_CAPTURE_TOKEN } hbuf hn
                  (by simpa using (by omega : p.docinfo.errors.length + es.length < 2147483648))
                  hu.2 hf.2 (Or.inr (Or.inl ⟨rfl, hto⟩))
              have ne1 : OAI_TOKEN ≠ qualified OAI_NS "error".toList := by decide
              refine ⟨q, ?_, ?_, ?_, hqn⟩
              · simpa [parse_events, parse_event, parse_element_start_callback, h1, h2, h3]
                  using hq
              · simpa [pending_error, hs, h3, ne1, spec_errors, PSTATE_CAPTURE_NONE,
                  PSTATE_CAPTURE_TOKEN, PSTATE_CAPTURE_ERROR] using hqe
              · rw [hqt]
                simp only [token_after, spec_token, h3, OAI_TOKEN_eq, if_true, hs]
                cases spec_token es <;>
                  simp [PSTATE_CAPTURE_NONE, PSTATE_CAPTURE_TOKEN, hempty,
                    text_only_content es hto]
            · obtain ⟨q, hq, hqe, hqt, hqn⟩ := ih p hbuf hn (by omega) hu.2 hf.2 (Or.inl ⟨hs, hz⟩)
              have ne1 : name ≠ qualified OAI_NS "error".toList := by rw [← OAI_ERROR_eq]; exact h2
              have ne2 : name ≠ qualified OAI_NS "resumptionToken".toList := by
                rw [← OAI_TOKEN_eq]; exact h3
              refine ⟨q, ?_, ?_, ?_, hqn⟩
              · simpa [parse_events, parse_event, parse_element_start_callback, h1, h2, h3]
                  using hq
              · rw [hqe]
                simp only [spec_errors, ne1, if_false]
                simp [pending_error, hs, PSTATE_CAPTURE_NONE, PSTATE_CAPTURE_ERROR]
              · rw [hqt]
                simp only [token_after, spec_token, ne2, if_false, hs]
                cases spec_token es <;> simp [PSTATE_CAPTURE_NONE, PSTATE_CAPTURE_TOKEN]
      · simp [text_only] at ht
      · simp [text_only] at ht

theorem make_pstate_records (document : XMLRun) :
    ∃ q, parse_events make_pstate document.events = some q ∧
      q.docinfo.nr_of_records = (document.events.countP is_oai_record_start : Nat) := by
  have hb := document.bounded
  obtain ⟨q, hq, _, hn⟩ := parse_events_records document.events make_pstate
    (by simp [pstate_safe, make_pstate, PSTATE_CAPTURE_NONE, PSTATE_CAPTURE_ERROR])
    (by simp [make_pstate, make_docinfo])
    (by simp only [make_pstate, make_docinfo]; omega)
  exact ⟨q, hq, by simpa [make_pstate, make_docinfo] using hn⟩

theorem log_errors_frame (errs : List error_t) : ∀ w : World,
    (errs.foldl (fun w err => log_error (.error_protocol err.code err.message) w) w).handle
        = w.handle ∧
    (errs.foldl (fun w err => log_error (.error_protocol err.code err.message) w) w).fetched
        = w.fetched := by
  induction errs with
  | nil => intro w; simp
  | cons e es ih =>
    intro w
    simp only [List.foldl_cons]
    have := ih (log_error (.error_protocol e.code e.message) w)
    simpa [log_error] using this

theorem log_protocol_errors_frame (d : docinfo_t) (w : World) :
    (log_protocol_errors d w).handle = w.handle ∧
    (log_protocol_errors d w).fetched = w.fetched :=
  log_errors_frame _ w

/-- What `fetch_records` leaves on the output stream and in the list of fetches,
whichever way it ends. -/
theorem fetch_records_world (verbose : Bool) (r : Response) (url : Str) (w : World) :
    (fetch_records verbose r url w).world.fetched = w.fetched ++ [url] ∧
    (fetch_records verbose r url w).world.handle = w.handle ++
      (match r with
       | none => []
       | some body =>
         if body.ns.status_ok = true ∧ 0 < body.ns.events.countP is_oai_record_start then
           serialize_events [] body.plain.events
         else []) := by
  cases r with
  | none => cases verbose <;> simp [fetch_records, fetch, log_info, Step.world]
  | some body =>
    obtain ⟨q, hq, hn⟩ := make_pstate_records body.ns
    have hpos : (0 < q.docinfo.nr_of_records) ↔ 0 < body.ns.events.countP is_oai_record_start := by
      rw [hn]; exact Int.natCast_pos
    have key : ∀ X : World,
        (if 0 < q.docinfo.nr_of_errors then log_protocol_errors q.docinfo X else X).handle
          = X.handle ∧
        (if 0 < q.docinfo.nr_of_errors then log_protocol_errors q.docinfo X else X).fetched
          = X.fetched := by
      intro X
      split_ifs
      · exact log_protocol_errors_frame q.docinfo X
      · exact ⟨rfl, rfl⟩
    have info : ∀ (l : LogLine) (X : World),
        (log_info verbose l X).handle = X.handle ∧ (log_info verbose l X).fetched = X.fetched := by
      intro l X
      cases verbose <;> simp [log_info]
    simp only [fetch_records, fetch, parse, hq]
    cases hok : body.ns.status_ok
    · simp [log_error, Step.world, info]
    · simp only [↓reduceIte]
      by_cases hrec : 0 < q.docinfo.nr_of_records
      · have hrec2 := hpos.1 hrec
        rw [if_pos hrec]
        simp only [if_true, hrec2, serialize, and_self]
        cases body.plain.status_ok <;> cases q.docinfo.token <;>
          simp [log_error, Step.world, key, info, events_eq]
      · have hrec2 : ¬ 0 < body.ns.events.countP is_oai_record_start := fun h => hrec (hpos.2 h)
        rw [if_neg hrec]
        simp only [if_true, hrec2, and_false, if_false]
        cases q.docinfo.token <;> simp [Step.world, key, info]

theorem fetch_records_ret (verbose : Bool) (r : Response) (url : Str) (w w2 : World)
    (tok : Option Str) (h : fetch_records verbose r url w = .ret tok w2) :
    w2.fetched = w.fetched ++ [url] ∧ w2.handle = w.handle ++ page_output r := by
  have hw := fetch_records_world verbose r url w
  rw [h] at hw
  refine ⟨hw.1, ?_⟩
  rw [show (Step.ret tok w2).world = w2 from rfl] at hw
  rw [hw.2]
  cases r with
  | none => simp [page_output]
  | some body =>
    simp only [page_output]
    by_cases hok : body.ns.status_ok = true
    · simp [hok]
    · exfalso
      obtain ⟨q, hq, _⟩ := make_pstate_records body.ns
      have hok2 : body.ns.status_ok = false := by simpa using hok
      simp [fetch_records, fetch, parse, hq, hok2] at h

theorem harvest_loop_run (cfg : Config) (last : Response) (rest : List Response)
    (hlast : returns_token cfg.verbose last none) :
    ∀ (pages : List Response) (toks : List Str) (url : Str) (w : World),
    List.Forall₂ (fun r t => returns_token cfg.verbose r (some t)) pages toks →
    ∃ w2, harvest_loop cfg (pages ++ last :: rest) url w = .exit_success w2 ∧
      w2.fetched = w.fetched ++ url :: toks.map (build_resume_url cfg.baseUrl) ∧
      w2.handle = w.handle ++ (pages ++ [last]).flatMap page_output ++ RECORDS_CLOSE := by
  intro pages
  induction pages with
  | nil =>
    intro toks url w h
    cases h
    obtain ⟨w1, h1⟩ := hlast url w
    obtain ⟨hf, hh⟩ := fetch_records_ret _ _ _ _ _ _ h1
    refine ⟨{ w1 with handle := w1.handle ++ RECORDS_CLOSE }, by simp [harvest_loop, h1], ?_, ?_⟩
    · simp [hf]
    · simp [hh]
  | cons r rs ih =>
    intro toks url w h
    cases h with
    | cons hr hrs =>
      rename_i t ts
      obtain ⟨w1, h1⟩ := hr url w
      obtain ⟨hf, hh⟩ := fetch_records_ret _ _ _ _ _ _ h1
      obtain ⟨w2, h2, h2f, h2h⟩ := ih ts (build_resume_url cfg.baseUrl t) w1 hrs
      refine ⟨w2, by simp [harvest_loop, h1, h2], ?_, ?_⟩
      · simp [h2f, hf]
      · simp [h2h, hh]

theorem well_nested_atts_unique (es : List XMLEvent) : ∀ stack : List Str,
    well_nested stack es = true → atts_unique es = true := by
  induction es with
  | nil => intro _ _; rfl
  | cons e es ih =>
    intro stack h
    cases stack with
    | nil => simp [well_nested] at h
    | cons top stack =>
      cases e with
      | startElement name atts =>
        simp only [well_nested, Bool.and_eq_true] at h
        simp only [atts_unique, Bool.and_eq_true]
        exact ⟨h.1, ih _ h.2⟩
      | endElement name =>
        simp only [well_nested, Bool.and_eq_true] at h
        exact ih _ h.2
      | characterData str =>
        simp only [well_nested] at h
        exact ih _ h

theorem well_formed_atts_unique (es : List XMLEvent) (h : well_formed_events es = true) :
    atts_unique es = true := by
  cases es with
  | nil => simp [well_formed_events] at h
  | cons e es =>
    cases e with
    | startElement name atts =>
      simp only [well_formed_events, Bool.and_eq_true] at h
      simp only [atts_unique, Bool.and_eq_true]
      exact ⟨h.1, well_nested_atts_unique es _ h.2⟩
    | endElement name => simp [well_formed_events] at h
    | characterData str => simp [well_formed_events] at h

/-- On a response whose capture elements hold character data only, `parse`
returns the errors and the token of the specification. -/
theorem parse_flat (document : XMLRun) (w : World) (hok : document.status_ok = true)
    (hu : atts_unique document.events = true) (hflat : captures_flat document.events = true) :
    ∃ d, parse document w = .ret d w ∧ d.errors = spec_errors document.events ∧
      d.token = spec_token document.events ∧ d.nr_of_errors = (d.errors.length : Int) := by
  have hb := document.bounded
  obtain ⟨q, hq, hqe, hqt, hqn⟩ := parse_events_flat document.events make_pstate
    (by simp [make_pstate, make_buffer]) (by simp [make_pstate, make_docinfo])
    (by simpa [make_pstate, make_docinfo] using hb) hu hflat
    (Or.inl ⟨rfl, rfl⟩)
  refine ⟨q.docinfo, by simp [parse, hq, hok], ?_, ?_, hqn⟩
  · simpa [make_pstate, make_docinfo, pending_error, PSTATE_CAPTURE_NONE, PSTATE_CAPTURE_ERROR]
      using hqe
  · rw [hqt]
    simp only [token_after, make_pstate, make_docinfo]
    cases spec_token document.events <;> simp [PSTATE_CAPTURE_NONE, PSTATE_CAPTURE_TOKEN]

theorem spec_token_none_iff (es : List XMLEvent) :
    spec_token es = none ↔ es.all (fun e => !is_oai_token_start e) = true := by
  induction es with
  | nil => simp [spec_token]
  | cons e es ih =>
    cases e with
    | startElement name atts =>
      have head : is_oai_token_start (.startElement name atts)
          = decide (name = qualified OAI_NS "resumptionToken".toList) := rfl
      simp only [spec_token, List.all_cons, Bool.and_eq_true, head]
      cases hs : spec_token es with
      | none =>
        have h2 := ih.1 hs
        by_cases hn : name = qualified OAI_NS "resumptionToken".toList
        · simp only [hn, if_true, decide_True, Bool.not_true]
          constructor
          · intro h; cases h
          · intro h; cases h.1
        · simp only [hn, if_false, decide_False, Bool.not_false, h2, and_self]
      | some t =>
        constructor
        · intro h; cases h
        · intro h
          have := ih.2 h.2
          rw [hs] at this
          cases this
    | endElement name => simpa [spec_token, is_oai_token_start] using ih
    | characterData str => simpa [spec_token, is_oai_token_start] using ih

theorem spec_token_append (pre es : List XMLEvent) (t : Str) (h : spec_token es = some t) :
    spec_token (pre ++ es) = some t := by
  induction pre with
  | nil => simpa using h
  | cons e pre ih =>
    cases e with
    | startElement name atts => simp [spec_token, ih]
    | endElement name => simpa [spec_token] using ih
    | characterData str => simpa [spec_token] using ih

theorem spec_token_empty_element (pre post : List XMLEvent) (atts : List (Str × Str))
    (name : Str) (hpost : post.all (fun e => !is_oai_token_start e) = true) :
    spec_token (pre ++ .startElement (qualified OAI_NS "resumptionToken".toList) atts ::
      .endElement name :: post) = some [] := by
  apply spec_token_append
  have := (spec_token_none_iff post).2 hpost
  simp [spec_token, this, own_content, character_content]

/-- A page on which both parsers succeed makes `fetch_records` return the token
that `parse` found. -/
theorem returns_token_of (verbose : Bool) (body : body_t) (q : pstate_t)
    (hq : parse_events make_pstate body.ns.events = some q)
    (hns : body.ns.status_ok = true) (hplain : body.plain.status_ok = true) :
    returns_token verbose (some body) q.docinfo.token := by
  intro url w
  simp only [fetch_records, fetch, parse, hq, hns, serialize, hplain, ↓reduceIte]
  by_cases hrec : 0 < q.docinfo.nr_of_records
  · rw [if_pos hrec]
    cases q.docinfo.token <;> exact ⟨_, rfl⟩
  · rw [if_neg hrec]
    cases q.docinfo.token <;> exact ⟨_, rfl⟩

/-! ### The scanner on what the re-serializer writes -/

theorem name_start_not_delimiter (c : Char) (h : is_name_start c = true) :
    c ≠ '/' ∧ c ≠ '>' ∧ c ≠ '<' ∧ is_space c = false := by
  refine ⟨?_, ?_, ?_, ?_⟩
  · rintro rfl; revert h; decide
  · rintro rfl; revert h; decide
  · rintro rfl; revert h; decide
  · cases hs : is_space c with
    | false => rfl
    | true =>
      simp only [is_space, Bool.or_eq_true, decide_eq_true_eq] at hs
      rcases hs with ((rfl | rfl) | rfl) | rfl <;> revert h <;> decide

theorem scan_append (s : Scan) (a b : Str) : scan s (a ++ b) = scan (scan s a) b := by
  simp [scan, List.foldl_append]

theorem scan_cons (s : Scan) (c : Char) (cs : Str) : scan s (c :: cs) = scan (scan_step s c) cs :=
  rfl

theorem scan_nil (s : Scan) : scan s [] = s := rfl

/-- While a name is read, name characters are collected. -/
theorem scan_name_chars (n : Str) : ∀ (m : Mode) (S : List Str) (r : Nat) (t : Str)
    (ks : List Str) (a : Str), n.all is_name_char = true →
    (m = .start_name ∨ m = .att_name ∨ m = .end_name ∨ ∃ v, m = .reference v) →
    scan ⟨m, S, r, t, ks, a⟩ n = ⟨m, S, r, t, ks, a ++ n⟩ := by
  induction n with
  | nil => intro m S r t ks a _ _; simp [scan_nil]
  | cons c cs ih =>
    intro m S r t ks a hn hm
    simp only [List.all_cons, Bool.and_eq_true] at hn
    have hstep : scan_step ⟨m, S, r, t, ks, a⟩ c = ⟨m, S, r, t, ks, a ++ [c]⟩ := by
      rcases hm with rfl | rfl | rfl | ⟨v, rfl⟩ <;> simp [scan_step, hn.1]
    rw [scan_cons, hstep, ih m S r t ks (a ++ [c]) hn.2 hm]
    simp

theorem is_name_chars (n : Str) (h : is_name n = true) : n.all is_name_char = true := by
  cases n with
  | nil => simp [is_name] at h
  | cons c cs =>
    simp only [is_name, Bool.and_eq_true] at h
    simp only [List.all_cons, Bool.and_eq_true]
    exact ⟨by simp [is_name_char, h.1], h.2⟩

/-- An entity reference in character data leaves the scanner in character data. -/
theorem scan_reference_content (e : Str) (he : e ∈ ENTITIES) (k : Nat) (top : Str)
    (S : List Str) (r : Nat) :
    scan ⟨.content k, top :: S, r, [], [], []⟩ ('&' :: (e ++ [';']))
      = ⟨.content 0, top :: S, r, [], [], []⟩ := by
  have hchars : e.all is_name_char = true := by
    simp only [ENTITIES, List.mem_cons, List.mem_singleton, List.not_mem_nil, or_false] at he
    rcases he with rfl | rfl | rfl | rfl | rfl <;> decide
  rw [scan_cons]
  have h1 : scan_step ⟨.content k, top :: S, r, [], [], []⟩ '&'
      = ⟨.reference none, top :: S, r, [], [], []⟩ := by
    simp [scan_step]
  rw [h1, scan_append, scan_name_chars e _ _ _ _ _ _ hchars (Or.inr (Or.inr (Or.inr ⟨_, rfl⟩)))]
  simp [scan_cons, scan_nil, scan_step, he, is_name_char, is_name_start]

/-- An entity reference in an attribute value leaves the scanner in the value. -/
theorem scan_reference_value (e : Str) (he : e ∈ ENTITIES) (q : Char) (hq : q ≠ '&')
    (S : List Str) (r : Nat) (t : Str) (ks : List Str) :
    scan ⟨.att_value q, S, r, t, ks, []⟩ ('&' :: (e ++ [';']))
      = ⟨.att_value q, S, r, t, ks, []⟩ := by
  have hchars : e.all is_name_char = true := by
    simp only [ENTITIES, List.mem_cons, List.mem_singleton, List.not_mem_nil, or_false] at he
    rcases he with rfl | rfl | rfl | rfl | rfl <;> decide
  rw [scan_cons]
  have h1 : scan_step ⟨.att_value q, S, r, t, ks, []⟩ '&'
      = ⟨.reference (some q), S, r, t, ks, []⟩ := by
    simp [scan_step, Ne.symm hq]
  rw [h1, scan_append, scan_name_chars e _ _ _ _ _ _ hchars (Or.inr (Or.inr (Or.inr ⟨_, rfl⟩)))]
  simp [scan_cons, scan_nil, scan_step, he, is_name_char, is_name_start]

theorem escape_image_other (c : Char) (h1 : c ≠ '<') (h2 : c ≠ '&') (h3 : c ≠ '"')
    (h4 : c ≠ Char.ofNat 39) : escape_image c = [c] := by
  have := write_escape_byte_eq [] c
  simp only [serialize_write_escape_byte, h1, h2, h3, h4, if_false, List.nil_append] at this
  exact this.symm

theorem scan_escape_image_content (c : Char) (k k2 : Nat) (top : Str) (S : List Str) (r : Nat)
    (h : rsqb_step k c = some k2) :
    scan ⟨.content k, top :: S, r, [], [], []⟩ (escape_image c)
      = ⟨.content k2, top :: S, r, [], [], []⟩ := by
  by_cases h1 : c = '<'
  · subst h1
    have hk : k2 = 0 := by simpa [rsqb_step] using h.symm
    subst hk
    exact scan_reference_content "lt".toList (by decide) k top S r
  by_cases h2 : c = '&'
  · subst h2
    have hk : k2 = 0 := by simpa [rsqb_step] using h.symm
    subst hk
    exact scan_reference_content "amp".toList (by decide) k top S r
  by_cases h3 : c = '"'
  · subst h3
    have hk : k2 = 0 := by simpa [rsqb_step] using h.symm
    subst hk
    exact scan_reference_content "quot".toList (by decide) k top S r
  by_cases h4 : c = Char.ofNat 39
  · subst h4
    have hk : k2 = 0 := by simpa [rsqb_step] using h.symm
    subst hk
    exact scan_reference_content "apos".toList (by decide) k top S r
  rw [escape_image_other c h1 h2 h3 h4, scan_cons, scan_nil]
  simp only [scan_step, h1, h2, if_false, List.cons_ne_nil]
  simp only [rsqb_step] at h
  by_cases h5 : c = ']'
  · simp only [h5, if_true, Option.some.injEq] at h ⊢
    rw [h]
  · simp only [h5, if_false] at h ⊢
    by_cases h6 : c = '>'
    · simp only [h6, if_true] at h ⊢
      by_cases h7 : k = 2
      · simp [h7] at h
      · simp only [h7, if_false, Option.some.injEq] at h ⊢
        rw [h]
    · simp only [h6, if_false, Option.some.injEq] at h ⊢
      rw [h]

theorem scan_escape_content (str : Str) : ∀ (k k2 : Nat) (top : Str) (S : List Str) (r : Nat),
    rsqb_run k str = some k2 →
    scan ⟨.content k, top :: S, r, [], [], []⟩ (escape str)
      = ⟨.content k2, top :: S, r, [], [], []⟩ := by
  induction str with
  | nil =>
    intro k k2 top S r h
    simp only [rsqb_run, Option.some.injEq] at h
    simp [escape, scan_nil, h]
  | cons c cs ih =>
    intro k k2 top S r h
    simp only [rsqb_run] at h
    cases hk : rsqb_step k c with
    | none => simp [hk] at h
    | some k1 =>
      simp only [hk] at h
      have : escape (c :: cs) = escape_image c ++ escape cs := by simp [escape]
      rw [this, scan_append, scan_escape_image_content c k k1 top S r hk, ih k1 k2 top S r h]

theorem scan_escape_image_value (c : Char) (S : List Str) (r : Nat) (t : Str)
    (ks : List Str) :
    scan ⟨.att_value '"', S, r, t, ks, []⟩ (escape_image c)
      = ⟨.att_value '"', S, r, t, ks, []⟩ := by
  by_cases h1 : c = '<'
  · subst h1
    exact scan_reference_value "lt".toList (by decide) '"' (by decide) S r t ks
  by_cases h2 : c = '&'
  · subst h2
    exact scan_reference_value "amp".toList (by decide) '"' (by decide) S r t ks
  by_cases h3 : c = '"'
  · subst h3
    exact scan_reference_value "quot".toList (by decide) '"' (by decide) S r t ks
  by_cases h4 : c = Char.ofNat 39
  · subst h4
    exact scan_reference_value "apos".toList (by decide) '"' (by decide) S r t ks
  rw [escape_image_other c h1 h2 h3 h4, scan_cons, scan_nil]
  simp [scan_step, h1, h2, h3]

theorem scan_escape_value (v : Str) (S : List Str) (r : Nat) (t : Str) (ks : List Str) :
    scan ⟨.att_value '"', S, r, t, ks, []⟩ (escape v)
      = ⟨.att_value '"', S, r, t, ks, []⟩ := by
  induction v with
  | nil => simp [escape, scan_nil]
  | cons c cs ih =>
    have : escape (c :: cs) = escape_image c ++ escape cs := by simp [escape]
    rw [this, scan_append, scan_escape_image_value, ih]

/-- An attribute name, `="`, the escaped value and `"`, read behind white space
in a start tag. -/
theorem scan_attribute_body (key v : Str) (S : List Str) (r : Nat) (t : Str)
    (ks : List Str) (hk : is_name key = true) (hnew : key ∉ ks) :
    scan ⟨.tag_gap, S, r, t, ks, []⟩ (key ++ "=\"".toList ++ escape v ++ "\"".toList)
      = ⟨.tag_next, S, r, t, key :: ks, []⟩ := by
  cases key with
  | nil => simp [is_name] at hk
  | cons c cs =>
    simp only [is_name, Bool.and_eq_true] at hk
    obtain ⟨hn1, hn2, _, hn4⟩ := name_start_not_delimiter c hk.1
    have h1 : scan_step ⟨.tag_gap, S, r, t, ks, []⟩ c = ⟨.att_name, S, r, t, ks, [c]⟩ := by
      simp [scan_step, hn4, hn2, hk.1]
    simp only [List.cons_append, List.append_assoc, scan_cons, h1]
    rw [scan_append, scan_name_chars cs _ _ _ _ _ _ hk.2 (Or.inr (Or.inl rfl))]
    have h3 : scan ⟨.att_name, S, r, t, ks, [c] ++ cs⟩ ("=\"".toList ++ (escape v ++ "\"".toList))
        = scan ⟨.att_value '"', S, r, t, (c :: cs) :: ks, []⟩ (escape v ++ "\"".toList) := by
      have hnew2 : ¬ (c :: cs) ∈ ks := hnew
      simp [scan_cons, scan_step, is_name_char, is_name_start, hnew2]
    rw [h3, scan_append, scan_escape_value]
    simp [scan_cons, scan_nil, scan_step]

/-- The attributes that follow a first one in a start tag. -/
theorem scan_attributes (atts : List (Str × Str)) : ∀ (S : List Str) (r : Nat) (t : Str)
    (ks : List Str), atts.all (fun att => is_name att.1) = true →
    (atts.map Prod.fst).Nodup → (∀ att ∈ atts, att.1 ∉ ks) →
    scan ⟨.tag_next, S, r, t, ks, []⟩ (atts.flatMap attribute_image)
      = ⟨.tag_next, S, r, t, (atts.map Prod.fst).reverse ++ ks, []⟩ := by
  induction atts with
  | nil => intro S r t ks _ _ _; simp [scan_nil]
  | cons a as ih =>
    intro S r t ks hn hd hks
    simp only [List.all_cons, Bool.and_eq_true] at hn
    simp only [List.map_cons, List.nodup_cons] at hd
    have hstep : scan_step ⟨.tag_next, S, r, t, ks, []⟩ ' ' = ⟨.tag_gap, S, r, t, ks, []⟩ := by
      simp [scan_step, is_space]
    have himg : (a :: as).flatMap attribute_image =
        ' ' :: ((a.1 ++ "=\"".toList ++ escape a.2 ++ "\"".toList) ++
          as.flatMap attribute_image) := by
      simp [attribute_image]
    rw [himg, scan_cons, hstep, scan_append,
      scan_attribute_body a.1 a.2 S r t ks hn.1 (hks a (by simp)),
      ih S r t (a.1 :: ks) hn.2 hd.2]
    · simp
    · intro att hatt hmem
      rcases List.mem_cons.1 hmem with h | h
      · exact hd.1 (by rw [← h]; exact List.mem_map_of_mem _ hatt)
      · exact hks att (by simp [hatt]) h

theorem open_element_eq (m : Mode) (S : List Str) (r : Nat) (t : Str) (ks : List Str)
    (a name : Str) (h : S ≠ [] ∨ r = 0) :
    open_element ⟨m, S, r, t, ks, a⟩ name = opened S r name := by
  cases S with
  | nil =>
    have hr : r = 0 := by simpa using h
    simp [open_element, opened, hr]
  | cons top S => simp [open_element, opened]

/-- A whole start tag, read in character data or before the root element. -/
theorem scan_start_tag (name : Str) (atts : List (Str × Str)) (k : Nat) (S : List Str)
    (r : Nat) (hname : is_name name = true)
    (hatts : atts.all (fun att => is_name att.1) = true)
    (hd : (atts.map Prod.fst).Nodup) (h : S ≠ [] ∨ r = 0) :
    scan ⟨.content k, S, r, [], [], []⟩ (event_image (.startElement name atts))
      = opened S r name := by
  cases name with
  | nil => simp [is_name] at hname
  | cons c cs =>
    simp only [is_name, Bool.and_eq_true] at hname
    obtain ⟨hn1, _, _, _⟩ := name_start_not_delimiter c hname.1
    have h1 : scan_step ⟨.content k, S, r, [], [], []⟩ '<' = ⟨.tag_open, S, r, [], [], []⟩ := by
      simp [scan_step]
    have h2 : scan_step ⟨.tag_open, S, r, [], [], []⟩ c = ⟨.start_name, S, r, [], [], [c]⟩ := by
      simp [scan_step, hn1, hname.1]
    have himg : event_image (.startElement (c :: cs) atts) =
        '<' :: c :: (cs ++ (atts.flatMap attribute_image ++ ['>'])) := by
      simp [event_image]
    rw [himg, scan_cons, h1, scan_cons, h2, scan_append,
      scan_name_chars cs _ _ _ _ _ _ hname.2 (Or.inl rfl)]
    cases atts with
    | nil =>
      simp only [List.flatMap_nil, List.nil_append, scan_cons, scan_nil]
      have : scan_step ⟨.start_name, S, r, [], [], [c] ++ cs⟩ '>'
          = open_element ⟨.start_name, S, r, [], [], [c] ++ cs⟩ ([c] ++ cs) := by
        simp [scan_step, is_name_char, is_name_start, is_space]
      rw [this, open_element_eq _ _ _ _ _ _ _ h]
      rfl
    | cons a as =>
      simp only [List.all_cons, Bool.and_eq_true] at hatts
      simp only [List.map_cons, List.nodup_cons] at hd
      have hstep : scan_step ⟨.start_name, S, r, [], [], [c] ++ cs⟩ ' '
          = ⟨.tag_gap, S, r, [c] ++ cs, [], []⟩ := by
        simp [scan_step, is_name_char, is_name_start, is_space]
      have himg2 : (a :: as).flatMap attribute_image ++ ['>'] =
          ' ' :: ((a.1 ++ "=\"".toList ++ escape a.2 ++ "\"".toList) ++
            (as.flatMap attribute_image ++ ['>'])) := by
        simp [attribute_image]
      rw [himg2, scan_cons, hstep, scan_append,
        scan_attribute_body a.1 a.2 S r _ [] hatts.1 (by simp), scan_append,
        scan_attributes as S r _ [a.1] hatts.2 hd.2]
      · have : scan_step ⟨.tag_next, S, r, [c] ++ cs, (as.map Prod.fst).reverse ++ [a.1], []⟩ '>'
            = open_element ⟨.tag_next, S, r, [c] ++ cs, (as.map Prod.fst).reverse ++ [a.1], []⟩
                ([c] ++ cs) := by
          simp [scan_step, is_space]
        rw [scan_cons, scan_nil, this, open_element_eq _ _ _ _ _ _ _ h]
        rfl
      · intro att hatt hmem
        have : att.1 = a.1 := by simpa using hmem
        exact hd.1 (by rw [← this]; exact List.mem_map_of_mem _ hatt)

/-- A whole end tag that matches the element open on top. -/
theorem scan_end_tag (name : Str) (k : Nat) (S : List Str) (r : Nat)
    (hname : is_name name = true) :
    scan ⟨.content k, name :: S, r, [], [], []⟩ (event_image (.endElement name))
      = ⟨.content 0, S, r, [], [], []⟩ := by
  have himg : event_image (.endElement name) = '<' :: '/' :: (name ++ ['>']) := by
    simp [event_image]
  have h1 : scan_step ⟨.content k, name :: S, r, [], [], []⟩ '<'
      = ⟨.tag_open, name :: S, r, [], [], []⟩ := by
    simp [scan_step]
  have h2 : scan_step ⟨.tag_open, name :: S, r, [], [], []⟩ '/'
      = ⟨.end_name, name :: S, r, [], [], []⟩ := by
    simp [scan_step]
  rw [himg, scan_cons, h1, scan_cons, h2, scan_append,
    scan_name_chars name _ _ _ _ _ _ (is_name_chars name hname) (Or.inr (Or.inr (Or.inl rfl)))]
  simp [scan_cons, scan_nil, scan_step, is_name_char, is_name_start]

/-- The events of the content of the open elements `stk`, read up to the end tag
of the lowest of them, leave the scanner in character data below them. -/
theorem scan_nested (es : List XMLEvent) : ∀ (stk base : List Str) (k r : Nat),
    well_nested stk es = true → names_valid es = true → text_free_of_cdend k es = true →
    ∃ k2, scan ⟨.content k, stk ++ base, r, [], [], []⟩ (es.flatMap event_image)
      = ⟨.content k2, base, r, [], [], []⟩ := by
  induction es with
  | nil =>
    intro stk base k r hw _ _
    cases stk with
    | nil => exact ⟨k, by simp [scan_nil]⟩
    | cons top stk => simp [well_nested] at hw
  | cons e es ih =>
    intro stk base k r hw hn ht
    cases stk with
    | nil => simp [well_nested] at hw
    | cons top stk =>
      simp only [List.flatMap_cons, scan_append]
      cases e with
      | startElement name atts =>
        simp only [well_nested, Bool.and_eq_true, decide_eq_true_eq] at hw
        simp only [names_valid, Bool.and_eq_true] at hn
        simp only [text_free_of_cdend] at ht
        rw [scan_start_tag name atts k _ r hn.1.1 hn.1.2 hw.1 (Or.inl (by simp))]
        obtain ⟨k2, h2⟩ := ih (name :: top :: stk) base 0 r hw.2 hn.2 ht
        exact ⟨k2, by simpa [opened] using h2⟩
      | endElement name =>
        simp only [well_nested, Bool.and_eq_true, decide_eq_true_eq] at hw
        simp only [names_valid, Bool.and_eq_true] at hn
        simp only [text_free_of_cdend] at ht
        obtain ⟨k2, h2⟩ := ih stk base 0 r hw.2 hn.2 ht
        refine ⟨k2, ?_⟩
        rw [← hw.1]
        simp only [List.cons_append]
        rw [scan_end_tag name k _ r hn.1]
        exact h2
      | characterData str =>
        simp only [well_nested] at hw
        simp only [names_valid] at hn
        simp only [text_free_of_cdend] at ht
        cases hk : rsqb_run k str with
        | none => simp [hk] at ht
        | some k1 =>
          simp only [hk] at ht
          obtain ⟨k2, h2⟩ := ih (top :: stk) base k1 r hw hn ht
          refine ⟨k2, ?_⟩
          simp only [event_image, List.cons_append]
          rw [scan_escape_content str k k1 top _ r hk]
          exact h2

/-- The re-serialization of one response, read in character data or before the
root element. -/
theorem scan_page (es : List XMLEvent) (k : Nat) (S : List Str) (r : Nat)
    (hs : serializable es = true) (h : S ≠ [] ∨ r = 0) :
    ∃ k2, scan ⟨.content k, S, r, [], [], []⟩ (es.flatMap event_image)
      = ⟨.content k2, S, if S = [] then 1 else r, [], [], []⟩ := by
  simp only [serializable, Bool.and_eq_true] at hs
  obtain ⟨⟨hw, hn⟩, ht⟩ := hs
  cases es with
  | nil => simp [well_formed_events] at hw
  | cons e es =>
    cases e with
    | startElement name atts =>
      simp only [well_formed_events, Bool.and_eq_true, decide_eq_true_eq] at hw
      simp only [names_valid, Bool.and_eq_true] at hn
      simp only [text_free_of_cdend] at ht
      simp only [List.flatMap_cons, scan_append]
      rw [scan_start_tag name atts k S r hn.1.1 hn.1.2 hw.1 h]
      obtain ⟨k2, h2⟩ := scan_nested es [name] S 0 (if S = [] then 1 else r) hw.2 hn.2 ht
      exact ⟨k2, by simpa [opened] using h2⟩
    | endElement name => simp [well_formed_events] at hw
    | characterData str => simp [well_formed_events] at hw

theorem serialized_page_well_formed (es : List XMLEvent) (hs : serializable es = true) :
    xml_well_formed (serialize_events [] es) = true := by
  obtain ⟨k2, h2⟩ := scan_page es 0 [] 0 hs (Or.inr rfl)
  have h3 : scan scan_init (es.flatMap event_image) = ⟨.content k2, [], 1, [], [], []⟩ := by
    simpa [scan_init] using h2
  simp [xml_well_formed, events_eq, h3]

/-- Page outputs, each empty or the re-serialization of a serializable response,
read inside the `records` element. -/
theorem scan_pages (outs : List Str) : ∀ k : Nat,
    (∀ out ∈ outs, out = [] ∨ ∃ es, serializable es = true ∧ out = es.flatMap event_image) →
    ∃ k2, scan ⟨.content k, ["records".toList], 1, [], [], []⟩ outs.flatten
      = ⟨.content k2, ["records".toList], 1, [], [], []⟩ := by
  induction outs with
  | nil => intro k _; exact ⟨k, by simp [scan_nil]⟩
  | cons out outs ih =>
    intro k h
    simp only [List.flatten_cons, scan_append]
    rcases h out (by simp) with rfl | ⟨es, hes, rfl⟩
    · simpa [scan_nil] using ih k (fun o ho => h o (by simp [ho]))
    · obtain ⟨k1, h1⟩ := scan_page es k ["records".toList] 1 hes (Or.inl (by simp))
      rw [h1]
      simpa using ih k1 (fun o ho => h o (by simp [ho]))

theorem wrapped_pages_well_formed (outs : List Str)
    (h : ∀ out ∈ outs, out = [] ∨
      ∃ es, serializable es = true ∧ out = es.flatMap event_image) :
    xml_well_formed (RECORDS_OPEN ++ outs.flatten ++ RECORDS_CLOSE) = true := by
  have hopen : scan scan_init RECORDS_OPEN = ⟨.content 0, ["records".toList], 1, [], [], []⟩ := by
    decide
  obtain ⟨k2, h2⟩ := scan_pages outs 0 h
  have hclose : scan ⟨.content k2, ["records".toList], 1, [], [], []⟩ RECORDS_CLOSE
      = ⟨.content 0, [], 1, [], [], []⟩ :=
    scan_end_tag "records".toList k2 [] 1 (by decide)
  unfold xml_well_formed
  rw [scan_append, scan_append, hopen, h2, hclose]
  rfl

theorem page_output_serializable (r : Response)
    (h : ∀ body, r = some body → 0 < body.ns.events.countP is_oai_record_start →
      serializable body.plain.events = true) :
    page_output r = [] ∨
      ∃ es, serializable es = true ∧ page_output r = es.flatMap event_image := by
  cases r with
  | none => exact Or.inl rfl
  | some body =>
    by_cases hrec : 0 < body.ns.events.countP is_oai_record_start
    · exact Or.inr ⟨body.plain.events, h body rfl hrec, by simp [page_output, hrec, events_eq]⟩
    · exact Or.inl (by simp [page_output, hrec])

/-! ### Invariants of the parser state -/

theorem make_pstate_inv : pstate_inv make_pstate := by
  simp [pstate_inv, make_pstate, make_buffer, PSTATE_CAPTURE_NONE, PSTATE_CAPTURE_ERROR]

theorem parse_event_inv (p : pstate_t) (e : XMLEvent) (h : pstate_inv p) :
    ∃ q, parse_event p e = some q ∧ pstate_inv q := by
  obtain ⟨hrange, hsafe, hzero, hbuf⟩ := h
  cases e with
  | startElement name atts =>
    refine ⟨_, rfl, ?_⟩
    unfold parse_element_start_callback
    by_cases h1 : name = OAI_RECORD
    · rw [if_pos h1]
      exact ⟨hrange, hsafe, hzero, hbuf⟩
    · by_cases h2 : name = OAI_ERROR
      · rw [if_neg h1, if_pos h2]
        exact ⟨Or.inr (Or.inl rfl), fun _ => by simp,
          fun h => by simp [PSTATE_CAPTURE_NONE, PSTATE_CAPTURE_ERROR] at h, hbuf⟩
      · by_cases h3 : name = OAI_TOKEN
        · rw [if_neg h1, if_neg h2, if_pos h3]
          exact ⟨Or.inr (Or.inr rfl),
            fun h => by simp [PSTATE_CAPTURE_TOKEN, PSTATE_CAPTURE_ERROR] at h,
            fun h => by simp [PSTATE_CAPTURE_NONE, PSTATE_CAPTURE_TOKEN] at h, hbuf⟩
        · rw [if_neg h1, if_neg h2, if_neg h3]
          exact ⟨hrange, hsafe, hzero, hbuf⟩
  | endElement name =>
    simp only [parse_event, parse_element_end_callback]
    by_cases ht : p.state = PSTATE_CAPTURE_TOKEN
    · simp only [ht, if_true]
      exact ⟨_, rfl, Or.inl rfl,
        fun h => by simp [PSTATE_CAPTURE_NONE, PSTATE_CAPTURE_ERROR] at h,
        fun _ => rfl, by simp [reset_buffer]⟩
    · by_cases he : p.state = PSTATE_CAPTURE_ERROR
      · cases hpe : p.error with
        | none => exact absurd hpe (hsafe he)
        | some err =>
          simp only [ht, he, if_true, if_false]
          exact ⟨_, rfl, Or.inl rfl,
            fun h => by simp [PSTATE_CAPTURE_NONE, PSTATE_CAPTURE_ERROR] at h,
            fun _ => rfl, by simp [reset_buffer]⟩
      · simp only [ht, he, if_false]
        exact ⟨p, rfl, hrange, hsafe, hzero, hbuf⟩
  | characterData str =>
    refine ⟨_, rfl, ?_⟩
    unfold parse_cdata_callback
    by_cases h0 : p.state = 0
    · simp only [h0, ne_eq, not_true_eq_false, if_false]
      exact ⟨hrange, hsafe, hzero, hbuf⟩
    · simp only [h0, ne_eq, not_false_eq_true, if_true]
      exact ⟨hrange, hsafe, fun h => absurd h h0, buffer_append_ok _ _ hbuf⟩

theorem parse_events_inv (evs : List XMLEvent) : ∀ p : pstate_t, pstate_inv p →
    ∃ q, parse_events p evs = some q ∧ pstate_inv q := by
  induction evs with
  | nil => intro p h; exact ⟨p, rfl, h⟩
  | cons e es ih =>
    intro p h
    obtain ⟨q, hq, hqi⟩ := parse_event_inv p e h
    obtain ⟨r, hr, hri⟩ := ih q hqi
    exact ⟨r, by simp [parse_events, hq, hr], hri⟩

theorem reachable_inv (p : pstate_t) (h : reachable p) : pstate_inv p := by
  obtain ⟨evs, hevs⟩ := h
  obtain ⟨q, hq, hqi⟩ := parse_events_inv evs make_pstate make_pstate_inv
  rw [hq] at hevs
  cases hevs
  exact hqi

theorem parse_events_append (es1 es2 : List XMLEvent) : ∀ p : pstate_t,
    parse_events p (es1 ++ es2) = (parse_events p es1).bind (fun q => parse_events q es2) := by
  induction es1 with
  | nil => intro p; simp [parse_events]
  | cons e es ih =>
    intro p
    simp only [List.cons_append, parse_events]
    cases parse_event p e with
    | none => rfl
    | some q => exact ih q

theorem capture_name_iff (name : Str) :
    is_capture_name name = true ↔ name = OAI_ERROR ∨ name = OAI_TOKEN := by
  simp [is_capture_name, OAI_ERROR_eq, OAI_TOKEN_eq]

theorem OAI_RECORD_not_capture : OAI_RECORD ≠ OAI_ERROR ∧ OAI_RECORD ≠ OAI_TOKEN := by
  constructor <;> decide

/-- A start tag that is neither OAI `error` nor OAI `resumptionToken` changes the
record count at most. -/
theorem start_other (p : pstate_t) (name : Str) (atts : List (Str × Str))
    (h : is_capture_name name = false) :
    (parse_element_start_callback p name atts).state = p.state ∧
    (parse_element_start_callback p name atts).error = p.error ∧
    (parse_element_start_callback p name atts).cdata = p.cdata ∧
    (parse_element_start_callback p name atts).docinfo.errors = p.docinfo.errors ∧
    (parse_element_start_callback p name atts).docinfo.nr_of_errors = p.docinfo.nr_of_errors ∧
    (parse_element_start_callback p name atts).docinfo.token = p.docinfo.token := by
  have hn : ¬ (name = OAI_ERROR ∨ name = OAI_TOKEN) := by
    rw [← capture_name_iff, h]; simp
  have h2 : name ≠ OAI_ERROR := fun e => hn (Or.inl e)
  have h3 : name ≠ OAI_TOKEN := fun e => hn (Or.inr e)
  unfold parse_element_start_callback
  by_cases h1 : name = OAI_RECORD
  · rw [if_pos h1]; exact ⟨rfl, rfl, rfl, rfl, rfl, rfl⟩
  · rw [if_neg h1, if_neg h2, if_neg h3]; exact ⟨rfl, rfl, rfl, rfl, rfl, rfl⟩

/-- While a capture is in progress, events that are no end tag and no start of
another capture add their character data to the scratch buffer and nothing else. -/
theorem capture_run (body : List XMLEvent) : ∀ p : pstate_t, p.state ≠ 0 →
    p.cdata.size ≤ p.cdata.data.length → body.all continues_capture = true →
    ∃ q, parse_events p body = some q ∧ q.state = p.state ∧ q.error = p.error ∧
      buffer_to_string q.cdata = buffer_to_string p.cdata ++ character_content body ∧
      q.cdata.size ≤ q.cdata.data.length ∧
      q.docinfo.errors = p.docinfo.errors ∧ q.docinfo.token = p.docinfo.token ∧
      q.docinfo.nr_of_errors = p.docinfo.nr_of_errors := by
  induction body with
  | nil =>
    intro p _ hb _
    exact ⟨p, rfl, rfl, rfl, by simp [character_content], hb, rfl, rfl, rfl⟩
  | cons e es ih =>
    intro p hs hb hall
    simp only [List.all_cons, Bool.and_eq_true] at hall
    cases e with
    | startElement name atts =>
      have hc : is_capture_name name = false := by simpa [continues_capture] using hall.1
      obtain ⟨s1, s2, s3, s4, s5, s6⟩ := start_other p name atts hc
      obtain ⟨q, hq, hqs, hqe, hqb, hqv, hqr, hqt, hqn⟩ :=
        ih (parse_element_start_callback p name atts) (by rw [s1]; exact hs)
          (by rw [s3]; exact hb) hall.2
      refine ⟨q, by simp [parse_events, parse_event, hq], by rw [hqs, s1], by rw [hqe, s2], ?_,
        hqv, by rw [hqr, s4], by rw [hqt, s6], by rw [hqn, s5]⟩
      rw [hqb, s3]
      simp [character_content]
    | endElement name => simp [continues_capture] at hall
    | characterData str =>
      have hstep : parse_cdata_callback p str = { p with cdata := buffer_append p.cdata str } := by
        simp [parse_cdata_callback, hs]
      obtain ⟨q, hq, hqs, hqe, hqb, hqv, hqr, hqt, hqn⟩ :=
        ih { p with cdata := buffer_append p.cdata str } hs (buffer_append_ok _ _ hb) hall.2
      refine ⟨q, by simp [parse_events, parse_event, hstep, hq], hqs, hqe, ?_, hqv, hqr, hqt, hqn⟩
      rw [hqb]
      simp [character_content, buffer_to_string_append _ _ hb]

/-- Outside a capture, events that start no capture store nothing. -/
theorem idle_run (es : List XMLEvent) : ∀ p : pstate_t, p.state = PSTATE_CAPTURE_NONE →
    no_capture_start es = true →
    ∃ q, parse_events p es = some q ∧ q.state = PSTATE_CAPTURE_NONE ∧ q.cdata = p.cdata ∧
      q.error = p.error ∧ q.docinfo.errors = p.docinfo.errors ∧
      q.docinfo.nr_of_errors = p.docinfo.nr_of_errors ∧ q.docinfo.token = p.docinfo.token := by
  induction es with
  | nil => intro p hs _; exact ⟨p, rfl, hs, rfl, rfl, rfl, rfl, rfl⟩
  | cons e es ih =>
    intro p hs hn
    cases e with
    | startElement name atts =>
      simp only [no_capture_start, Bool.and_eq_true, Bool.not_eq_true'] at hn
      obtain ⟨s1, s2, s3, s4, s5, s6⟩ := start_other p name atts hn.1
      obtain ⟨q, hq, hqs, hqc, hqe, hqr, hqn, hqt⟩ :=
        ih (parse_element_start_callback p name atts) (by rw [s1]; exact hs) hn.2
      exact ⟨q, by simp [parse_events, parse_event, hq], hqs, by rw [hqc, s3], by rw [hqe, s2],
        by rw [hqr, s4], by rw [hqn, s5], by rw [hqt, s6]⟩
    | endElement name =>
      simp only [no_capture_start] at hn
      have hstep : parse_element_end_callback p name = some p := by
        simp [parse_element_end_callback, hs, PSTATE_CAPTURE_NONE, PSTATE_CAPTURE_TOKEN,
          PSTATE_CAPTURE_ERROR]
      obtain ⟨q, hq, hrest⟩ := ih p hs hn
      exact ⟨q, by simp [parse_events, parse_event, hstep, hq], hrest⟩
    | characterData str =>
      simp only [no_capture_start] at hn
      have hstep : parse_cdata_callback p str = p := by
        simp [parse_cdata_callback, hs, PSTATE_CAPTURE_NONE]
      obtain ⟨q, hq, hrest⟩ := ih p hs hn
      exact ⟨q, by simp [parse_events, parse_event, hstep, hq], hrest⟩

/-- The number of errors is the length of the array, on every run of the parser. -/
theorem parse_events_count (evs : List XMLEvent) : ∀ p : pstate_t, pstate_safe p →
    p.docinfo.nr_of_errors = (p.docinfo.errors.length : Int) →
    p.docinfo.errors.length + evs.length < 2147483648 →
    ∃ q, parse_events p evs = some q ∧
      q.docinfo.nr_of_errors = (q.docinfo.errors.length : Int) := by
  induction evs with
  | nil => intro p _ hn _; exact ⟨p, rfl, hn⟩
  | cons e es ih =>
    intro p hs hn hb
    simp only [List.length_cons] at hb
    cases e with
    | startElement name atts =>
      have hsafe : pstate_safe (parse_element_start_callback p name atts) := by
        unfold parse_element_start_callback pstate_safe
        split_ifs <;> simp_all [pstate_safe, PSTATE_CAPTURE_ERROR, PSTATE_CAPTURE_TOKEN]
      have herr : (parse_element_start_callback p name atts).docinfo.errors = p.docinfo.errors ∧
          (parse_element_start_callback p name atts).docinfo.nr_of_errors
            = p.docinfo.nr_of_errors := by
        unfold parse_element_start_callback
        split_ifs <;> exact ⟨rfl, rfl⟩
      obtain ⟨q, hq, hqn⟩ := ih (parse_element_start_callback p name atts) hsafe
        (by rw [herr.1, herr.2]; exact hn) (by rw [herr.1]; omega)
      exact ⟨q, by simp [parse_events, parse_event, hq], hqn⟩
    | endElement name =>
      by_cases ht : p.state = PSTATE_CAPTURE_TOKEN
      · obtain ⟨q, hq, hqn⟩ :=
          ih { p with
               docinfo := { p.docinfo with token := some (buffer_to_string p.cdata) }
               cdata := reset_buffer p.cdata
               state := PSTATE_CAPTURE_NONE }
            (by simp [pstate_safe, PSTATE_CAPTURE_NONE, PSTATE_CAPTURE_ERROR]) hn
            (by simpa using (by omega : p.docinfo.errors.length + es.length < 2147483648))
        exact ⟨q, by simp [parse_events, parse_event, parse_element_end_callback, ht, hq], hqn⟩
      · by_cases he : p.state = PSTATE_CAPTURE_ERROR
        · cases hpe : p.error with
          | none => exact absurd hpe (hs he)
          | some err =>
            have hadd := add_error_eq p.docinfo
              { err with message := some (buffer_to_string p.cdata) } hn (by omega)
            obtain ⟨q, hq, hqn⟩ :=
              ih { p with
                   docinfo := docinfo_add_error p.docinfo
                     { err with message := some (buffer_to_string p.cdata) }
                   cdata := reset_buffer p.cdata
                   error := none
                   state := PSTATE_CAPTURE_NONE }
                (by simp [pstate_safe, PSTATE_CAPTURE_NONE, PSTATE_CAPTURE_ERROR])
                (by simp [hadd])
                (by simp only [hadd, List.length_append, List.length_singleton]; omega)
            exact ⟨q, by simp [parse_events, parse_event, parse_element_end_callback, he,
              hpe, hq, PSTATE_CAPTURE_ERROR, PSTATE_CAPTURE_TOKEN], hqn⟩
        · obtain ⟨q, hq, hqn⟩ := ih p hs hn (by omega)
          exact ⟨q, by simp [parse_events, parse_event, parse_element_end_callback, ht, he, hq],
            hqn⟩
    | characterData str =>
      have hsafe : pstate_safe (parse_cdata_callback p str) := by
        unfold parse_cdata_callback pstate_safe
        split_ifs <;> simp_all [pstate_safe]
      have herr : (parse_cdata_callback p str).docinfo = p.docinfo := by
        unfold parse_cdata_callback
        split_ifs <;> rfl
      obtain ⟨q, hq, hqn⟩ := ih (parse_cdata_callback p str) hsafe
        (by rw [herr]; exact hn) (by rw [herr]; omega)
      exact ⟨q, by simp [parse_events, parse_event, hq], hqn⟩

/-- What `parse` returns is the `docinfo` of the final parser state, in which the
number of errors is the length of the array. -/
theorem parse_ret_docinfo (document : XMLRun) (d : docinfo_t) (w0 : World)
    (h : parse document w0 = .ret d w0) :
    document.status_ok = true ∧ d.nr_of_errors = (d.errors.length : Int) ∧
    ∀ w, parse document w = .ret d w := by
  have hb := document.bounded
  obtain ⟨q, hq, hqn⟩ := parse_events_count document.events make_pstate
    (by simp [pstate_safe, make_pstate, PSTATE_CAPTURE_NONE, PSTATE_CAPTURE_ERROR])
    (by simp [make_pstate, make_docinfo])
    (by simpa [make_pstate, make_docinfo] using hb)
  simp only [parse, hq] at h ⊢
  cases hok : document.status_ok with
  | false => simp [hok] at h
  | true =>
    simp only [hok, if_true, Step.ret.injEq, and_true] at h
    subst h
    exact ⟨rfl, hqn, fun _ => by simp⟩

theorem parse_events_start (p : pstate_t) (name : Str) (atts : List (Str × Str))
    (es : List XMLEvent) :
    parse_events p (.startElement name atts :: es)
      = parse_events (parse_element_start_callback p name atts) es := rfl

/-! ### Decoding the escaped bytes -/

theorem escape_cons (c : Char) (cs : Str) : escape (c :: cs) = escape_image c ++ escape cs := by
  simp [escape]

theorem unescape_image (c : Char) (rest : Str) :
    unescape (escape_image c ++ rest) = c :: unescape rest := by
  by_cases h1 : c = '<'
  · subst h1; simp [escape_image, ESCAPES, List.lookup, unescape]
  by_cases h2 : c = '&'
  · subst h2; simp [escape_image, ESCAPES, List.lookup, unescape]
  by_cases h3 : c = '"'
  · subst h3; simp [escape_image, ESCAPES, List.lookup, unescape]
  by_cases h4 : c = Char.ofNat 39
  · subst h4; simp [escape_image, ESCAPES, List.lookup, unescape]
  rw [escape_image_other c h1 h2 h3 h4, List.singleton_append, unescape]
  all_goals (intros; simp_all)

theorem unescape_escape (s : Str) : unescape (escape s) = s := by
  induction s with
  | nil => simp [escape, unescape]
  | cons c cs ih => rw [escape_cons, unescape_image, ih]

theorem escape_image_clean (c x : Char) (hx : x ∈ escape_image c) :
    x ≠ '<' ∧ x ≠ '"' ∧ x ≠ Char.ofNat 39 := by
  by_cases h1 : c = '<'
  · subst h1
    have : x ∈ "&lt;".toList := hx
    simp only [String.toList, List.mem_cons, List.mem_singleton, List.not_mem_nil,
      or_false] at this
    rcases this with rfl | rfl | rfl | rfl <;> decide
  by_cases h2 : c = '&'
  · subst h2
    have : x ∈ "&amp;".toList := hx
    simp only [String.toList, List.mem_cons, List.mem_singleton, List.not_mem_nil,
      or_false] at this
    rcases this with rfl | rfl | rfl | rfl | rfl <;> decide
  by_cases h3 : c = '"'
  · subst h3
    have : x ∈ "&quot;".toList := hx
    simp only [String.toList, List.mem_cons, List.mem_singleton, List.not_mem_nil,
      or_false] at this
    rcases this with rfl | rfl | rfl | rfl | rfl | rfl <;> decide
  by_cases h4 : c = Char.ofNat 39
  · subst h4
    have : x ∈ "&apos;".toList := hx
    simp only [String.toList, List.mem_cons, List.mem_singleton, List.not_mem_nil,
      or_false] at this
    rcases this with rfl | rfl | rfl | rfl | rfl | rfl <;> decide
  rw [escape_image_other c h1 h2 h3 h4] at hx
  have : x = c := by simpa using hx
  subst this
  exact ⟨h1, h3, h4⟩

theorem escape_clean (s : Str) (x : Char) (hx : x ∈ escape s) :
    x ≠ '<' ∧ x ≠ '"' ∧ x ≠ Char.ofNat 39 := by
  simp only [escape, List.mem_flatMap] at hx
  obtain ⟨c, _, hc⟩ := hx
  exact escape_image_clean c x hc

/-- A suffix of the image of one byte followed by more text that begins with `&`
begins with a reference, or lies in the text that follows. -/
theorem image_suffix_reference (c : Char) (rest t : Str) (ht : t <:+ escape_image c ++ rest)
    (hamp : t.head? = some '&') :
    (∃ r ∈ REFERENCES, r <+: t) ∨ t <:+ rest := by
  by_cases h1 : c = '<'
  · subst h1
    have himg : escape_image '<' ++ rest = '&' :: 'l' :: 't' :: ';' :: rest := rfl
    rw [himg] at ht
    simp only [List.suffix_cons_iff] at ht
    rcases ht with rfl | rfl | rfl | rfl | h
    · exact Or.inl ⟨"&lt;".toList, by simp [REFERENCES], ⟨rest, rfl⟩⟩
    · simp at hamp
    · simp at hamp
    · simp at hamp
    · exact Or.inr h
  by_cases h2 : c = '&'
  · subst h2
    have himg : escape_image '&' ++ rest = '&' :: 'a' :: 'm' :: 'p' :: ';' :: rest := rfl
    rw [himg] at ht
    simp only [List.suffix_cons_iff] at ht
    rcases ht with rfl | rfl | rfl | rfl | rfl | h
    · exact Or.inl ⟨"&amp;".toList, by simp [REFERENCES], ⟨rest, rfl⟩⟩
    · simp at hamp
    · simp at hamp
    · simp at hamp
    · simp at hamp
    · exact Or.inr h
  by_cases h3 : c = '"'
  · subst h3
    have himg : escape_image '"' ++ rest = '&' :: 'q' :: 'u' :: 'o' :: 't' :: ';' :: rest := rfl
    rw [himg] at ht
    simp only [List.suffix_cons_iff] at ht
    rcases ht with rfl | rfl | rfl | rfl | rfl | rfl | h
    · exact Or.inl ⟨"&quot;".toList, by simp [REFERENCES], ⟨rest, rfl⟩⟩
    · simp at hamp
    · simp at hamp
    · simp at hamp
    · simp at hamp
    · simp at hamp
    · exact Or.inr h
  by_cases h4 : c = Char.ofNat 39
  · subst h4
    have himg : escape_image (Char.ofNat 39) ++ rest
        = '&' :: 'a' :: 'p' :: 'o' :: 's' :: ';' :: rest := rfl
    rw [himg] at ht
    simp only [List.suffix_cons_iff] at ht
    rcases ht with rfl | rfl | rfl | rfl | rfl | rfl | h
    · exact Or.inl ⟨"&apos;".toList, by simp [REFERENCES], ⟨rest, rfl⟩⟩
    · simp at hamp
    · simp at hamp
    · simp at hamp
    · simp at hamp
    · simp at hamp
    · exact Or.inr h
  rw [escape_image_other c h1 h2 h3 h4, List.singleton_append, List.suffix_cons_iff] at ht
  rcases ht with rfl | h
  · simp only [List.head?_cons, Option.some.injEq] at hamp
    exact absurd hamp h2
  · exact Or.inr h

theorem escape_references (s : Str) : ∀ t : Str, t <:+ escape s → t.head? = some '&' →
    ∃ r ∈ REFERENCES, r <+: t := by
  induction s with
  | nil =>
    intro t ht hamp
    have : t = [] := by simpa [escape] using ht
    subst this
    simp at hamp
  | cons c cs ih =>
    intro t ht hamp
    rw [escape_cons] at ht
    rcases image_suffix_reference c (escape cs) t ht hamp with h | h
    · exact h
    · exact ih t h hamp

/-! ### The harvest loop: prefixes, fatal pages, protocol errors -/

/-- Pages that return tokens are passed one after the other. -/
theorem harvest_loop_prefix (cfg : Config) : ∀ (pre : List Response) (toks : List Str)
    (url : Str) (w : World),
    List.Forall₂ (fun r t => returns_token cfg.verbose r (some t)) pre toks →
    ∃ url2 w2, (∀ rs, harvest_loop cfg (pre ++ rs) url w = harvest_loop cfg rs url2 w2) ∧
      w2.fetched.length = w.fetched.length + pre.length ∧
      w2.handle = w.handle ++ pre.flatMap page_output := by
  intro pre
  induction pre with
  | nil =>
    intro toks url w _
    exact ⟨url, w, fun _ => rfl, by simp, by simp⟩
  | cons r rs ih =>
    intro toks url w h
    cases h with
    | cons hr hrs =>
      rename_i t ts
      obtain ⟨w1, h1⟩ := hr url w
      obtain ⟨hf, hh⟩ := fetch_records_ret _ _ _ _ _ _ h1
      obtain ⟨url2, w2, h2, h2f, h2h⟩ := ih ts (build_resume_url cfg.baseUrl t) w1 hrs
      refine ⟨url2, w2, ?_, ?_, ?_⟩
      · intro rest
        simp only [List.cons_append, harvest_loop, h1]
        exact h2 rest
      · rw [h2f, hf]; simp; omega
      · rw [h2h, hh]; simp

theorem tokens_of_pages (verbose : Bool) (pages : List Response)
    (h : ∀ r ∈ pages, ∃ t, returns_token verbose r (some t)) :
    ∃ toks, List.Forall₂ (fun r t => returns_token verbose r (some t)) pages toks := by
  induction pages with
  | nil => exact ⟨[], List.Forall₂.nil⟩
  | cons r rs ih =>
    obtain ⟨t, ht⟩ := h r (by simp)
    obtain ⟨ts, hts⟩ := ih (fun x hx => h x (by simp [hx]))
    exact ⟨t :: ts, List.Forall₂.cons ht hts⟩

/-- On a fatal response `fetch_records` ends the process with failure; when the
parser reported the error, the last log line is the parse error. -/
theorem fetch_records_fatal (verbose : Bool) (r : Response) (url : Str) (w : World)
    (h : fatal r = true) :
    ∃ w2, fetch_records verbose r url w = .exit_failure w2 ∧
      w2.fetched = w.fetched ++ [url] ∧
      (r ≠ none → w2.stderr.getLast? = some .error_parse) := by
  cases r with
  | none =>
    simp only [fetch_records, fetch]
    refine ⟨_, rfl, ?_, by simp⟩
    cases verbose <;> simp [log_info]
  | some body =>
    obtain ⟨q, hq, hn⟩ := make_pstate_records body.ns
    have hpos : (0 < q.docinfo.nr_of_records) ↔
        0 < body.ns.events.countP is_oai_record_start := by
      rw [hn]; exact Int.natCast_pos
    have key : ∀ X : World,
        (if 0 < q.docinfo.nr_of_errors then log_protocol_errors q.docinfo X else X).fetched
          = X.fetched := by
      intro X
      split_ifs
      · exact (log_protocol_errors_frame q.docinfo X).2
      · rfl
    have info : ∀ (l : LogLine) (X : World), (log_info verbose l X).fetched = X.fetched := by
      intro l X
      cases verbose <;> simp [log_info]
    simp only [fatal, Bool.or_eq_true, Bool.not_eq_true', Bool.and_eq_true,
      decide_eq_true_eq] at h
    simp only [fetch_records, fetch, parse, hq]
    cases hok : body.ns.status_ok
    · simp only [Bool.false_eq_true, ↓reduceIte]
      exact ⟨_, rfl, by simp [log_error, info], by simp [log_error]⟩
    · rcases h with h | ⟨hrec, hplain⟩
      · rw [hok] at h; cases h
      · simp only [↓reduceIte, if_pos (hpos.2 hrec), serialize, hplain, Bool.false_eq_true]
        exact ⟨_, rfl, by simp [log_error, info, key], by simp [log_error]⟩

theorem log_errors_eq (errs : List error_t) : ∀ w : World,
    errs.foldl (fun w err => log_error (.error_protocol err.code err.message) w) w
      = { w with stderr := w.stderr ++ errs.map protocol_error_line } := by
  induction errs with
  | nil => intro w; simp
  | cons e es ih =>
    intro w
    simp only [List.foldl_cons, ih]
    simp [log_error, protocol_error_line]

theorem log_protocol_errors_eq (d : docinfo_t) (w : World)
    (hn : d.nr_of_errors = (d.errors.length : Int)) :
    log_protocol_errors d w
      = { w with stderr := w.stderr ++ d.errors.map protocol_error_line } := by
  unfold log_protocol_errors
  rw [hn]
  simp only [Int.toNat_ofNat, List.take_length]
  exact log_errors_eq d.errors w

theorem fetch_records_parsed (verbose : Bool) (body : body_t) (url : Str) (w : World)
    (d : docinfo_t) (hd : ∀ w, parse body.ns w = .ret d w) :
    fetch_records verbose (some body) url w
      = after_parse verbose body d (after_fetch verbose url w) := by
  simp only [fetch_records, fetch, hd]
  rfl

/-- The errors of a `docinfo` only add their log lines, in order, before the rest
of what `fetch_records` does behind `parse`. -/
theorem after_parse_errors (verbose : Bool) (body : body_t) (d : docinfo_t) (w : World)
    (hn : d.nr_of_errors = (d.errors.length : Int)) :
    (after_parse verbose body d w).returned
      = (after_parse verbose body { d with nr_of_errors := 0, errors := [] } w).returned ∧
    (after_parse verbose body d w).failed
      = (after_parse verbose body { d with nr_of_errors := 0, errors := [] } w).failed ∧
    (after_parse verbose body d w).world.handle
      = (after_parse verbose body { d with nr_of_errors := 0, errors := [] } w).world.handle ∧
    (after_parse verbose body d w).world.fetched
      = (after_parse verbose body { d with nr_of_errors := 0, errors := [] } w).world.fetched ∧
    (after_parse verbose body d w).world.stderr
      = w.stderr ++ d.errors.map protocol_error_line ++
        ((after_parse verbose body { d with nr_of_errors := 0, errors := [] } w).world.stderr).drop
          w.stderr.length := by
  have hw : (if 0 < d.nr_of_errors then log_protocol_errors d w else w)
      = { w with stderr := w.stderr ++ d.errors.map protocol_error_line } := by
    split_ifs with h
    · exact log_protocol_errors_eq d w hn
    · have : d.errors = [] := by
        have : (d.errors.length : Int) ≤ 0 := by rw [← hn]; omega
        exact List.eq_nil_of_length_eq_zero (by omega)
      simp [this]
  simp only [after_parse, hw]
  by_cases hrec : 0 < d.nr_of_records
  · simp only [hrec, if_true, serialize]
    cases body.plain.status_ok <;> cases d.token <;> cases verbose <;>
      simp [log_info, log_error, Step.returned, Step.failed, Step.world]
  · simp only [hrec, if_false]
    cases d.token <;> cases verbose <;>
      simp [log_info, Step.returned, Step.failed, Step.world]

theorem after_parse_congr (verbose : Bool) (body body0 : body_t) (d : docinfo_t) (w : World)
    (hev : body0.plain.events = body.plain.events)
    (hst : body0.plain.status_ok = body.plain.status_ok) :
    after_parse verbose body0 d w = after_parse verbose body d w := by
  simp only [after_parse, serialize, hev, hst]

/-- The loop ends with success only behind a page for which `fetch_records`
returned no token. -/
theorem harvest_loop_success (cfg : Config) : ∀ (rs : List Response) (url : Str)
    (w0 w : World), harvest_loop cfg rs url w0 = .exit_success w →
    ∃ pre last rest url1 w1 w2, rs = pre ++ last :: rest ∧
      fetch_records cfg.verbose last url1 w1 = .ret none w2 ∧
      w.handle = w2.handle ++ RECORDS_CLOSE := by
  intro rs
  induction rs with
  | nil => intro url w0 w h; simp [harvest_loop] at h
  | cons r rs ih =>
    intro url w0 w h
    simp only [harvest_loop] at h
    cases hf : fetch_records cfg.verbose r url w0 with
    | exit_failure w1 => simp [hf] at h
    | null_deref w1 => simp [hf] at h
    | ret tok w1 =>
      cases tok with
      | none =>
        simp only [hf, Outcome.exit_success.injEq] at h
        exact ⟨[], r, rs, url, w0, w1, rfl, hf, by rw [← h]⟩
      | some t =>
        simp only [hf] at h
        obtain ⟨pre, last, rest, url1, w2, w3, hrs, hlast, hw⟩ := ih _ _ _ h
        exact ⟨r :: pre, last, rest, url1, w2, w3, by simp [hrs], hlast, hw⟩

/-- On one document a parser error is met by `parse`, whichever parser reports it. -/
theorem parser_error_in_parse (body : body_t) (hdoc : one_document body = true)
    (herr : parser_error body = true) : body.ns.status_ok = false := by
  unfold one_document at hdoc
  unfold parser_error at herr
  cases h1 : body.ns.status_ok <;> cases h2 : body.plain.status_ok <;> simp_all

theorem fetch_fails_fatal (r : Response)
    (hdoc : ∀ body, r = some body → one_document body = true)
    (h : fetch_fails r = true) : fatal r = true := by
  cases r with
  | none => rfl
  | some body =>
    have hns := parser_error_in_parse body (hdoc body rfl) h
    simp [fatal, hns]


/-! ### The record counter on runs of any length -/

theorem wrap32_wrap32_add (x y : Int) : wrap32 (wrap32 x + y) = wrap32 (x + y) := by
  unfold wrap32
  omega

theorem wrap32_zero : wrap32 0 = 0 := by decide

theorem wrap32_wrap32 (x : Int) : wrap32 (wrap32 x) = wrap32 x := by
  unfold wrap32
  omega

/-- One callback adds one to the record counter, as an `int`, for the start tag
of an OAI `record` and leaves it as it is otherwise. -/
theorem parse_event_counter (p q : pstate_t) (e : XMLEvent) (h : parse_event p e = some q) :
    q.docinfo.nr_of_records =
      if is_oai_record_start e = true then int_add p.docinfo.nr_of_records 1
      else p.docinfo.nr_of_records := by
  cases e with
  | startElement name atts =>
    simp only [parse_event, Option.some.injEq] at h
    subst h
    have hrec : is_oai_record_start (.startElement name atts) = decide (name = OAI_RECORD) := by
      simp [is_oai_record_start, OAI_RECORD_eq]
    rw [hrec]
    unfold parse_element_start_callback
    by_cases h1 : name = OAI_RECORD
    · rw [if_pos h1]; simp [h1]
    · rw [if_neg h1]
      simp only [h1, decide_False, Bool.false_eq_true, if_false]
      split_ifs <;> rfl
  | endElement name =>
    simp only [parse_event, parse_element_end_callback] at h
    have hrec : is_oai_record_start (.endElement name) = false := rfl
    rw [hrec]
    simp only [Bool.false_eq_true, if_false]
    by_cases ht : p.state = PSTATE_CAPTURE_TOKEN
    · rw [if_pos ht] at h
      simp only [Option.some.injEq] at h
      subst h; rfl
    · rw [if_neg ht] at h
      by_cases he : p.state = PSTATE_CAPTURE_ERROR
      · rw [if_pos he] at h
        cases hpe : p.error with
        | none => simp [hpe] at h
        | some err =>
          simp only [hpe, Option.some.injEq] at h
          subst h; rfl
      · rw [if_neg he] at h
        simp only [Option.some.injEq] at h
        subst h; rfl
  | characterData str =>
    simp only [parse_event, Option.some.injEq] at h
    subst h
    have hrec : is_oai_record_start (.characterData str) = false := rfl
    rw [hrec]
    simp only [Bool.false_eq_true, if_false]
    unfold parse_cdata_callback
    split_ifs <;> rfl

/-- On every sequence of events the record counter ends as the number of OAI
`record` start tags, added up as an `int`. -/
theorem parse_events_counter (evs : List XMLEvent) : ∀ p : pstate_t, pstate_inv p →
    ∃ q, parse_events p evs = some q ∧
      wrap32 q.docinfo.nr_of_records
        = wrap32 (p.docinfo.nr_of_records + (evs.countP is_oai_record_start : Nat)) ∧
      (evs.countP is_oai_record_start = 0 →
        q.docinfo.nr_of_records = p.docinfo.nr_of_records) ∧
      (0 < evs.countP is_oai_record_start →
        q.docinfo.nr_of_records = wrap32 q.docinfo.nr_of_records) := by
  induction evs with
  | nil => intro p _; exact ⟨p, rfl, by simp, fun _ => rfl, by simp⟩
  | cons e es ih =>
    intro p hp
    obtain ⟨q, hq, hqi⟩ := parse_event_inv p e hp
    obtain ⟨r, hr, hr1, hr2, hr3⟩ := ih q hqi
    have hstep := parse_event_counter p q e hq
    refine ⟨r, by simp [parse_events, hq, hr], ?_, ?_, ?_⟩
    · rw [hr1, hstep, List.countP_cons]
      by_cases he : is_oai_record_start e = true
      · simp only [he, if_true, int_add]
        rw [wrap32_wrap32_add]
        congr 1
        push_cast
        omega
      · simp [he]
    · intro h0
      rw [List.countP_cons] at h0
      have he : ¬ is_oai_record_start e = true := by
        intro he; simp [he] at h0
      have h0' : es.countP is_oai_record_start = 0 := by
        simpa [he] using h0
      rw [hr2 h0', hstep]
      simp [he]
    · intro hpos
      by_cases hes : 0 < es.countP is_oai_record_start
      · exact hr3 hes
      · have h0' : es.countP is_oai_record_start = 0 := by omega
        have he : is_oai_record_start e = true := by
          by_contra he
          rw [List.countP_cons] at hpos
          simp [he, h0'] at hpos
        rw [hr2 h0', hstep]
        simp only [he, if_true, int_add]
        exact (wrap32_wrap32 _).symm

/-- The record counter in the state `parse` ends with, for a run of any length. -/
theorem make_pstate_counter (evs : List XMLEvent) :
    ∃ q, parse_events make_pstate evs = some q ∧
      q.docinfo.nr_of_records = wrap32 (evs.countP is_oai_record_start : Nat) := by
  obtain ⟨q, hq, h1, h2, h3⟩ := parse_events_counter evs make_pstate make_pstate_inv
  refine ⟨q, hq, ?_⟩
  have h1' : wrap32 q.docinfo.nr_of_records
      = wrap32 (evs.countP is_oai_record_start : Nat) := by
    simpa [make_pstate, make_docinfo] using h1
  by_cases h0 : evs.countP is_oai_record_start = 0
  · rw [h2 h0, h0]
    simp [make_pstate, make_docinfo, wrap32_zero]
  · rw [h3 (by omega), h1']

theorem record_pairs_count (n : Nat) : (record_pairs n).countP is_oai_record_start = n := by
  induction n with
  | zero => rfl
  | succ n ih =>
    have h1 : is_oai_record_start (.startElement (oai "record") []) = true := by decide
    have h2 : is_oai_record_start (.endElement (oai "record")) = false := rfl
    simp only [record_pairs, List.countP_cons, ih, h1, h2]
    simp

theorem records_response_count (n : Nat) :
    (records_response n).countP is_oai_record_start = n := by
  have h1 : is_oai_record_start (.startElement (oai "OAI-PMH") []) = false := by decide
  have h2 : is_oai_record_start (.endElement (oai "OAI-PMH")) = false := rfl
  simp only [records_response, List.countP_cons, List.countP_append, record_pairs_count,
    List.countP_nil, h1, h2]
  simp

theorem record_pairs_nested (n : Nat) (top : Str) (stack : List Str) (rest : List XMLEvent) :
    well_nested (top :: stack) (record_pairs n ++ rest) = well_nested (top :: stack) rest := by
  induction n with
  | zero => rfl
  | succ n ih =>
    simp only [record_pairs, List.cons_append, well_nested]
    simpa using ih

theorem records_response_well_formed (n : Nat) :
    well_formed_events (records_response n) = true := by
  simp only [records_response, well_formed_events, record_pairs_nested]
  simp [well_nested]

theorem record_pairs_idle (n : Nat) (rest : List XMLEvent) :
    no_capture_start (record_pairs n ++ rest) = no_capture_start rest := by
  induction n with
  | zero => rfl
  | succ n ih =>
    have h : is_capture_name (oai "record") = false := by decide
    simp only [record_pairs, List.cons_append, no_capture_start, h]
    simpa using ih

theorem records_response_idle (n : Nat) : no_capture_start (records_response n) = true := by
  have h : is_capture_name (oai "OAI-PMH") = false := by decide
  simp only [records_response, no_capture_start, record_pairs_idle, h]
  simp

/-- The ResponseInfo at the end of a response that holds `n` empty OAI `record`
elements and nothing else. -/
theorem records_response_docinfo (n : Nat) :
    parse_events make_pstate (records_response n) = some
      { make_pstate with
        docinfo := { make_docinfo with nr_of_records := wrap32 (n : Nat) } } := by
  obtain ⟨q, hq, hn⟩ := make_pstate_counter (records_response n)
  obtain ⟨q2, hq2, hs, hc, he, hr, hne, ht⟩ :=
    idle_run (records_response n) make_pstate rfl (records_response_idle n)
  have hqq : q2 = q := by
    rw [hq] at hq2
    exact (Option.some.inj hq2).symm
  rw [hqq] at hs hc he hr hne ht
  rw [records_response_count] at hn
  rw [hq]
  congr 1
  cases q with
  | mk docinfo cdata error state =>
    cases docinfo with
    | mk nr_of_errors nr_of_records errors token =>
      simp only at hs hc he hr hne ht hn
      rw [hs, hc, he, hr, hne, ht, hn]
      rfl

theorem parse_stream_records_response (n : Nat) (v : Int) (w : World)
    (hv : wrap32 (n : Int) = v) :
    parse_stream (records_response n) true w =
      .ret { nr_of_errors := 0, nr_of_records := v, errors := [], token := none } w := by
  subst hv
  simp only [parse_stream, records_response_docinfo]
  rfl


/-! ## The claims -/

/-- C1: when the first `k` pages make `fetch_records` return the tokens
`t_1 .. t_k` and the next page makes it return no token, `main` ends with success
after exactly `k + 1` fetches, the first to the request URL and the following ones
to the resume URLs of `t_1 .. t_k`; later responses are never asked for.  A page
whose `resumptionToken` element is present but empty returns the empty token, and
is followed by exactly one fetch of `baseUrl?verb=ListRecords&resumptionToken=`. -/
theorem harvest_loop_fetches (cfg : Config) (pages : List Response) (toks : List Str)
    (last : Response) (rest : List Response)
    (hpages : List.Forall₂ (fun r t => returns_token cfg.verbose r (some t)) pages toks)
    (hlast : returns_token cfg.verbose last none) :
    (∃ w, main cfg (pages ++ last :: rest) = .exit_success w ∧
      w.fetched =
        build_request_url cfg.baseUrl cfg.metadataPrefix cfg.from_ cfg.until_ cfg.set ::
          toks.map (build_resume_url cfg.baseUrl) ∧
      w.fetched.length = pages.length + 1) ∧
    (returns_token cfg.verbose (some empty_token_body) (some []) ∧
      ∃ w, main cfg (some empty_token_body :: last :: rest) = .exit_success w ∧
        w.fetched =
          [build_request_url cfg.baseUrl cfg.metadataPrefix cfg.from_ cfg.until_ cfg.set,
           cfg.baseUrl ++ "?verb=ListRecords&resumptionToken=".toList]) := by
  have hempty : returns_token cfg.verbose (some empty_token_body) (some []) :=
    returns_token_of cfg.verbose empty_token_body
      { docinfo := { nr_of_errors := 0, nr_of_records := 0, errors := [], token := some [] },
        cdata := { size := 0, data := [] }, error := none, state := 0 }
      (by decide) rfl rfl
  refine ⟨?_, hempty, ?_⟩
  · obtain ⟨w, hw, hf, _⟩ := harvest_loop_run cfg last rest hlast pages toks
      (build_request_url cfg.baseUrl cfg.metadataPrefix cfg.from_ cfg.until_ cfg.set)
      { handle := RECORDS_OPEN, stderr := [], fetched := [] } hpages
    refine ⟨w, hw, by simpa using hf, ?_⟩
    have hlen := List.Forall₂.length_eq hpages
    simp [hf, hlen]
  · obtain ⟨w, hw, hf, _⟩ := harvest_loop_run cfg last rest hlast [some empty_token_body] [[]]
      (build_request_url cfg.baseUrl cfg.metadataPrefix cfg.from_ cfg.until_ cfg.set)
      { handle := RECORDS_OPEN, stderr := [], fetched := [] }
      (List.Forall₂.cons hempty List.Forall₂.nil)
    exact ⟨w, hw, by simpa [build_resume_url] using hf⟩

/-- Witness of C1: a page with token `abc123`, then a page without token, then a
response that is never fetched. -/
theorem harvest_loop_fetches_witness :
    (∃ w, main example_config
        ([some (token_body "abc123".toList)] ++ some final_body :: [none]) = .exit_success w ∧
      w.fetched =
        build_request_url example_config.baseUrl example_config.metadataPrefix
            example_config.from_ example_config.until_ example_config.set ::
          ["abc123".toList].map (build_resume_url example_config.baseUrl) ∧
      w.fetched.length = [some (token_body "abc123".toList)].length + 1) ∧
    (returns_token example_config.verbose (some empty_token_body) (some []) ∧
      ∃ w, main example_config (some empty_token_body :: some final_body :: [none])
          = .exit_success w ∧
        w.fetched =
          [build_request_url example_config.baseUrl example_config.metadataPrefix
            example_config.from_ example_config.until_ example_config.set,
           example_config.baseUrl ++ "?verb=ListRecords&resumptionToken=".toList]) :=
  harvest_loop_fetches example_config [some (token_body "abc123".toList)] ["abc123".toList]
    (some final_body) [none]
    (List.Forall₂.cons
      (returns_token_of true (token_body "abc123".toList)
        { docinfo := { nr_of_errors := 0, nr_of_records := 1, errors := [],
                       token := some "abc123".toList },
          cdata := { size := 0, data := "abc123".toList }, error := none, state := 0 }
        (by decide) rfl rfl)
      List.Forall₂.nil)
    (returns_token_of true final_body
      { docinfo := { nr_of_errors := 0, nr_of_records := 1, errors := [], token := none },
        cdata := { size := 0, data := [] }, error := none, state := 0 }
      (by decide) rfl rfl)

/-- C2: for a sequence of pages that ends the harvest (tokens on all pages but the
last), `main` ends with success and the output stream holds exactly the opening
`records` tag, then, in fetch order, the whole re-serialization of every page that
has a record, then `</records>`.  A single response holding only
`<error code="noRecordsMatch">no records</error>` ends the loop after one fetch,
logs one protocol error and leaves the empty wrapper. -/
theorem harvest_output (cfg : Config) (pages : List Response) (toks : List Str)
    (last : Response) (rest : List Response)
    (hpages : List.Forall₂ (fun r t => returns_token cfg.verbose r (some t)) pages toks)
    (hlast : returns_token cfg.verbose last none) :
    (∃ w, main cfg (pages ++ last :: rest) = .exit_success w ∧
      w.handle = RECORDS_OPEN ++ (pages ++ [last]).flatMap page_output ++ RECORDS_CLOSE) ∧
    (∃ w, main cfg [some no_records_body] = .exit_success w ∧
      w.handle = RECORDS_OPEN ++ RECORDS_CLOSE ∧
      w.fetched.length = 1 ∧
      w.stderr.filter (fun l => decide (l ≠ .info_get
          (build_request_url cfg.baseUrl cfg.metadataPrefix cfg.from_ cfg.until_ cfg.set)))
        = [.error_protocol (some "noRecordsMatch".toList) (some "no records".toList)]) := by
  constructor
  · obtain ⟨w, hw, _, hh⟩ := harvest_loop_run cfg last rest hlast pages toks
      (build_request_url cfg.baseUrl cfg.metadataPrefix cfg.from_ cfg.until_ cfg.set)
      { handle := RECORDS_OPEN, stderr := [], fetched := [] } hpages
    exact ⟨w, hw, by simpa using hh⟩
  · have hp : parse_events make_pstate no_records_body.ns.events = some
        { docinfo := { nr_of_errors := 1, nr_of_records := 0,
                       errors := [{ code := some "noRecordsMatch".toList,
                                    message := some "no records".toList }],
                       token := none },
          cdata := { size := 0, data := "no records".toList }, error := none, state := 0 } := by
      decide
    have hs : no_records_body.ns.status_ok = true := rfl
    cases hv : cfg.verbose <;>
      simp [main, harvest_loop, fetch_records, fetch, parse, hp, hs, hv, log_info, log_error,
        log_protocol_errors, RECORDS_OPEN, RECORDS_CLOSE]

/-- Witness of C2: two pages with records, the first with a token. -/
theorem harvest_output_witness :
    (∃ w, main example_config
        ([some (token_body "abc123".toList)] ++ some final_body :: []) = .exit_success w ∧
      w.handle = RECORDS_OPEN ++
        ([some (token_body "abc123".toList)] ++ [some final_body]).flatMap page_output ++
        RECORDS_CLOSE) ∧
    (∃ w, main example_config [some no_records_body] = .exit_success w ∧
      w.handle = RECORDS_OPEN ++ RECORDS_CLOSE ∧
      w.fetched.length = 1 ∧
      w.stderr.filter (fun l => decide (l ≠ .info_get
          (build_request_url example_config.baseUrl example_config.metadataPrefix
            example_config.from_ example_config.until_ example_config.set)))
        = [.error_protocol (some "noRecordsMatch".toList) (some "no records".toList)]) :=
  harvest_output example_config [some (token_body "abc123".toList)] ["abc123".toList]
    (some final_body) []
    (List.Forall₂.cons
      (returns_token_of true (token_body "abc123".toList)
        { docinfo := { nr_of_errors := 0, nr_of_records := 1, errors := [],
                       token := some "abc123".toList },
          cdata := { size := 0, data := "abc123".toList }, error := none, state := 0 }
        (by decide) rfl rfl)
      List.Forall₂.nil)
    (returns_token_of true final_body
      { docinfo := { nr_of_errors := 0, nr_of_records := 1, errors := [], token := none },
        cdata := { size := 0, data := [] }, error := none, state := 0 }
      (by decide) rfl rfl)

/-- C3 fails as stated: for the well-formed response whose root element holds
`2147483648` empty OAI `record` elements, the number `N` of OAI `record` start
events is `2147483648`, but the `int` counter has wrapped and `parse` returns the
record count `-2147483648`. -/
theorem parse_record_count_overflow_counterexample :
    well_formed_events (records_response 2147483648) = true ∧
    (records_response 2147483648).countP is_oai_record_start = 2147483648 ∧
    parse_stream (records_response 2147483648) true world0 =
      .ret { nr_of_errors := 0, nr_of_records := -2147483648, errors := [], token := none }
        world0 :=
  ⟨records_response_well_formed 2147483648, records_response_count 2147483648,
    parse_stream_records_response 2147483648 (-2147483648) world0 (by decide)⟩

/-- C3 as amended: on every event stream that the XML parser accepts and that has
fewer than `2147483648` start-element events named
`http://www.openarchives.org/OAI/2.0/ record`, `parse` returns, and the
`nr_of_records` of its result is the number of these events, whatever the nesting,
the siblings and the capture mode; no other name is counted. -/
theorem parse_record_count_in_range (evs : List XMLEvent) (w : World)
    (hN : evs.countP is_oai_record_start < 2147483648) :
    ∃ d, parse_stream evs true w = .ret d w ∧
      d.nr_of_records = (evs.countP is_oai_record_start : Nat) ∧
      ∀ document : XMLRun, document.events = evs → document.status_ok = true →
        parse document w = .ret d w := by
  obtain ⟨q, hq, hn⟩ := make_pstate_counter evs
  refine ⟨q.docinfo, by simp [parse_stream, hq], ?_, ?_⟩
  · rw [hn]
    unfold wrap32
    omega
  · intro document hev hok
    simp [parse, hev, hq, hok]

/-- Witness of C3 as amended: four OAI records at different depths and in all
capture modes, beside two `record` elements that are not in the OAI namespace. -/
theorem parse_record_count_in_range_witness :
    records_doc.events.countP is_oai_record_start = 4 ∧
    ∃ d, parse_stream records_doc.events true world0 = .ret d world0 ∧
      d.nr_of_records = (records_doc.events.countP is_oai_record_start : Nat) ∧
      ∀ document : XMLRun, document.events = records_doc.events →
        document.status_ok = true → parse document world0 = .ret d world0 :=
  ⟨by decide, parse_record_count_in_range records_doc.events world0 (by decide)⟩

/-- C4 fails as stated: in the well-formed response
`<error code="badArgument">a<detail>b</detail>c</error>` the character data of
the `error` element up to its own end tag is `abc`, but `parse` returns the
message `ab`, appended at the end tag of the child element. -/
theorem protocol_errors_child_counterexample :
    well_formed_events error_child_doc.events = true ∧
    error_child_doc.status_ok = true ∧
    spec_errors error_child_doc.events =
      [{ code := some "badArgument".toList, message := some "abc".toList }] ∧
    parse error_child_doc world0 =
      .ret { nr_of_errors := 1, nr_of_records := 0,
             errors := [{ code := some "badArgument".toList, message := some "ab".toList }],
             token := none } world0 ∧
    ¬ ∃ d, parse error_child_doc world0 = .ret d world0 ∧
      d.errors = spec_errors error_child_doc.events := by
  refine ⟨by decide, rfl, by decide, by decide, ?_⟩
  rintro ⟨d, hd, he⟩
  have hp : parse error_child_doc world0 =
      .ret { nr_of_errors := 1, nr_of_records := 0,
             errors := [{ code := some "badArgument".toList, message := some "ab".toList }],
             token := none } world0 := by decide
  rw [hp] at hd
  injection hd with hd _
  subst hd
  revert he
  decide

/-- C4 as amended: on every well-formed response in which the OAI `error` and
`resumptionToken` elements hold character data only, `parse` returns, and its
`errors` are one entry per OAI `error` element in document order, with the value
of the `code` attribute (null when absent) as code and the character data of the
element as message; `nr_of_errors` is their number. -/
theorem protocol_errors_flat (document : XMLRun) (w : World)
    (hok : document.status_ok = true)
    (hwf : well_formed_events document.events = true)
    (hflat : captures_flat document.events = true) :
    ∃ d, parse document w = .ret d w ∧ d.errors = spec_errors document.events ∧
      d.nr_of_errors = (d.errors.length : Int) := by
  obtain ⟨d, hd, he, _, hn⟩ :=
    parse_flat document w hok (well_formed_atts_unique _ hwf) hflat
  exact ⟨d, hd, he, hn⟩

/-- Witness of C4 as amended: two errors, one with a code and a message in two
runs, one without code and empty. -/
theorem protocol_errors_flat_witness :
    spec_errors flat_doc.events =
      [{ code := some "badArgument".toList, message := some "first message".toList },
       { code := none, message := some [] }] ∧
    ∃ d, parse flat_doc world0 = .ret d world0 ∧ d.errors = spec_errors flat_doc.events ∧
      d.nr_of_errors = (d.errors.length : Int) :=
  ⟨by decide, protocol_errors_flat flat_doc world0 rfl (by decide) (by decide)⟩

/-- C5 fails as stated: in the well-formed response
`<resumptionToken>ab<part/>cd</resumptionToken>`, where no `error` or
`resumptionToken` element is nested in another, the character data between the
start and the end of the element is `abcd`, but `parse` returns the token `ab`. -/
theorem resumption_token_child_counterexample :
    well_formed_events token_child_doc.events = true ∧
    captures_not_nested token_child_doc.events = true ∧
    token_child_doc.status_ok = true ∧
    spec_token token_child_doc.events = some "abcd".toList ∧
    parse token_child_doc world0 =
      .ret { nr_of_errors := 0, nr_of_records := 0, errors := [],
             token := some "ab".toList } world0 ∧
    ¬ ∃ d, parse token_child_doc world0 = .ret d world0 ∧
      d.token = spec_token token_child_doc.events := by
  refine ⟨by decide, by decide, rfl, by decide, by decide, ?_⟩
  rintro ⟨d, hd, he⟩
  have hp : parse token_child_doc world0 =
      .ret { nr_of_errors := 0, nr_of_records := 0, errors := [],
             token := some "ab".toList } world0 := by decide
  rw [hp] at hd
  injection hd with hd _
  subst hd
  revert he
  decide

/-- C5 as amended: on every well-formed response in which the OAI `error` and
`resumptionToken` elements hold character data only, `parse` returns; the token is
null exactly when no OAI `resumptionToken` element occurs; otherwise it is the
character data of that element (of the last one, when there are several); an
empty `resumptionToken` element that no other one follows gives the empty string,
which is not null. -/
theorem resumption_token_flat (document : XMLRun) (w : World)
    (hok : document.status_ok = true)
    (hwf : well_formed_events document.events = true)
    (hflat : captures_flat document.events = true) :
    ∃ d, parse document w = .ret d w ∧ d.token = spec_token document.events ∧
      (d.token = none ↔ document.events.all (fun e => !is_oai_token_start e) = true) ∧
      (∀ pre post atts name,
        document.events = pre ++
          .startElement (qualified OAI_NS "resumptionToken".toList) atts ::
          .endElement name :: post →
        post.all (fun e => !is_oai_token_start e) = true →
        d.token = some [] ∧ d.token ≠ none) := by
  obtain ⟨d, hd, _, ht, _⟩ :=
    parse_flat document w hok (well_formed_atts_unique _ hwf) hflat
  refine ⟨d, hd, ht, ?_, ?_⟩
  · rw [ht]; exact spec_token_none_iff _
  · intro pre post atts name hev hpost
    have := spec_token_empty_element pre post atts name hpost
    rw [← hev] at this
    rw [ht, this]
    exact ⟨rfl, by simp⟩

/-- Witness of C5 as amended: the token `abc123` delivered in two runs. -/
theorem resumption_token_flat_witness :
    spec_token flat_doc.events = some "abc123".toList ∧
    ∃ d, parse flat_doc world0 = .ret d world0 ∧ d.token = spec_token flat_doc.events ∧
      (d.token = none ↔ flat_doc.events.all (fun e => !is_oai_token_start e) = true) ∧
      (∀ pre post atts name,
        flat_doc.events = pre ++
          .startElement (qualified OAI_NS "resumptionToken".toList) atts ::
          .endElement name :: post →
        post.all (fun e => !is_oai_token_start e) = true →
        d.token = some [] ∧ d.token ≠ none) :=
  ⟨by decide, resumption_token_flat flat_doc world0 rfl (by decide) (by decide)⟩

/-- C6: `fetch_records` leaves on the output stream what was there, followed by
the re-serialization of the body exactly when `parse` returned a result with
`nr_of_records > 0`; a response the transport or the parser rejects, and a
well-formed response without `record` element, add no byte. -/
theorem fetch_records_serializes (verbose : Bool) (r : Response) (url : Str) (w : World) :
    (fetch_records verbose r url w).world.handle =
      (match r with
       | none => w.handle
       | some body =>
         match parse body.ns w with
         | .ret d _ =>
           if 0 < d.nr_of_records then serialize_events w.handle body.plain.events
           else w.handle
         | _ => w.handle) ∧
    (∀ body, r = some body → body.ns.status_ok = true →
      body.ns.events.countP is_oai_record_start = 0 →
      (fetch_records verbose r url w).world.handle = w.handle) := by
  have hw := (fetch_records_world verbose r url w).2
  constructor
  · rw [hw]
    cases r with
    | none => simp
    | some body =>
      obtain ⟨q, hq, hn⟩ := make_pstate_records body.ns
      have hpos : (0 < q.docinfo.nr_of_records) ↔
          0 < body.ns.events.countP is_oai_record_start := by
        rw [hn]; exact Int.natCast_pos
      simp only [parse, hq]
      cases hok : body.ns.status_ok
      · simp
      · by_cases hrec : 0 < q.docinfo.nr_of_records
        · simp [hrec, hpos.1 hrec, events_eq]
        · have : ¬ 0 < body.ns.events.countP is_oai_record_start := fun h => hrec (hpos.2 h)
          simp [hrec, this]
  · intro body hr _ hzero
    rw [hw, hr]
    simp [hzero]

/-- Witness of C6: the response without records adds nothing, the one with a
record adds its re-serialization. -/
theorem fetch_records_serializes_witness :
    (fetch_records true (some no_records_body) [] world0).world.handle = world0.handle ∧
    (fetch_records true (some final_body) [] world0).world.handle =
      "<OAI-PMH xmlns=\"http://www.openarchives.org/OAI/2.0/\"><ListRecords><record>s</record></ListRecords></OAI-PMH>".toList :=
  ⟨(fetch_records_serializes true (some no_records_body) [] world0).2 no_records_body rfl rfl
      (by decide),
   by decide⟩

/-- C7: `serialize_write_escape` writes, behind what the stream holds, the
images of the bytes of `s` in order, where `<` becomes `&lt;`, `&` becomes
`&amp;`, `"` becomes `&quot;`, the apostrophe becomes `&apos;` and every other
byte, `>` among them, stays as it is; `a<b&c"d'e` is written as
`a&lt;b&amp;c&quot;d&apos;e`. -/
theorem serialize_write_escape_images (file s : Str) :
    serialize_write_escape file s = file ++ s.flatMap escape_image ∧
    escape_image '<' = "&lt;".toList ∧
    escape_image '&' = "&amp;".toList ∧
    escape_image '"' = "&quot;".toList ∧
    escape_image (Char.ofNat 39) = "&apos;".toList ∧
    escape_image '>' = ['>'] ∧
    (∀ c : Char, c ≠ '<' → c ≠ '&' → c ≠ '"' → c ≠ Char.ofNat 39 → escape_image c = [c]) ∧
    serialize_write_escape [] "a<b&c\"d'e".toList = "a&lt;b&amp;c&quot;d&apos;e".toList := by
  refine ⟨write_escape_eq s file, by decide, by decide, by decide, by decide, by decide, ?_,
    by decide⟩
  intro c h1 h2 h3 h4
  have := write_escape_byte_eq [] c
  simp only [serialize_write_escape_byte, h1, h2, h3, h4, if_false, List.nil_append] at this
  exact this.symm

/-- Witness of C7: the example of the specification, behind bytes already
written. -/
theorem serialize_write_escape_images_witness :
    serialize_write_escape "<t>".toList "a<b&c\"d'e>".toList
      = "<t>a&lt;b&amp;c&quot;d&apos;e>".toList ∧
    escape_image 'x' = ['x'] :=
  ⟨by
    rw [(serialize_write_escape_images "<t>".toList "a<b&c\"d'e>".toList).1]
    decide,
   (serialize_write_escape_images [] []).2.2.2.2.2.2.1 'x' (by decide) (by decide) (by decide)
     (by decide)⟩

/-- C8: for a start-element event the re-serializer writes `<`, the name, then
for each attribute in order a blank, the key, `="`, the escaped value and `"`,
then `>`; for an end-element event it writes `</`, the name and `>`; without
attributes the start tag is `<`, the name and `>`. -/
theorem serialize_element_tags (file name : Str) (atts : List (Str × Str)) :
    serialize_element_start_callback file name atts =
      file ++ "<".toList ++ name ++
        atts.flatMap (fun att =>
          " ".toList ++ att.1 ++ "=\"".toList ++ att.2.flatMap escape_image ++ "\"".toList) ++
        ">".toList ∧
    serialize_element_end_callback file name = file ++ "</".toList ++ name ++ ">".toList ∧
    serialize_element_start_callback file name [] = file ++ "<".toList ++ name ++ ">".toList := by
  refine ⟨?_, rfl, by simp [serialize_element_start_callback]⟩
  rw [element_start_eq]
  rfl

/-- C10: `build_request_url` returns the base, `?verb=ListRecords&metadataPrefix=`
and the prefix, followed by `&until=` and its value, `&from=` and its value,
`&set=` and its value, each only when present, in this order, the values copied
as they are; `from=2020-01-01`, `until=2020-12-31`, `set=abc` give a URL ending in
`&until=2020-12-31&from=2020-01-01&set=abc`. -/
theorem build_request_url_format (baseUrl metadataPrefix : Str)
    (from_ until_ set : Option Str) :
    build_request_url baseUrl metadataPrefix from_ until_ set =
      baseUrl ++ "?verb=ListRecords&metadataPrefix=".toList ++ metadataPrefix ++
        url_parameter "&until=".toList until_ ++ url_parameter "&from=".toList from_ ++
        url_parameter "&set=".toList set ∧
    build_request_url baseUrl metadataPrefix (some "2020-01-01".toList)
        (some "2020-12-31".toList) (some "abc".toList) =
      baseUrl ++ "?verb=ListRecords&metadataPrefix=".toList ++ metadataPrefix ++
        "&until=2020-12-31&from=2020-01-01&set=abc".toList := by
  constructor
  · cases from_ <;> cases until_ <;> cases set <;>
      simp [build_request_url, url_parameter]
  · simp [build_request_url]

/-- C9 fails as stated: the response
`<record xmlns="http://www.openarchives.org/OAI/2.0/"><title>]]&gt;</title></record>`
is well nested with one root, yet `serialize` writes the title as `]]>`, which
character data of a well-formed document must not contain, and the complete
output of the harvest of this one page is not a well-formed document. -/
theorem serialize_cdend_counterexample :
    well_formed_events cdend_body.plain.events = true ∧
    names_valid cdend_body.plain.events = true ∧
    serialize_events [] cdend_body.plain.events =
      "<record xmlns=\"http://www.openarchives.org/OAI/2.0/\"><title>]]></title></record>".toList ∧
    xml_well_formed (serialize_events [] cdend_body.plain.events) = false ∧
    main { example_config with verbose := false } [some cdend_body] =
      .exit_success
        { handle := RECORDS_OPEN ++
            "<record xmlns=\"http://www.openarchives.org/OAI/2.0/\"><title>]]></title></record>".toList
            ++ RECORDS_CLOSE,
          stderr := [],
          fetched := ["http://example.org/oai?verb=ListRecords&metadataPrefix=oai_dc".toList] } ∧
    xml_well_formed (RECORDS_OPEN ++
      "<record xmlns=\"http://www.openarchives.org/OAI/2.0/\"><title>]]></title></record>".toList
      ++ RECORDS_CLOSE) = false := by
  refine ⟨by decide, by decide, by decide, by decide, by decide, by decide⟩

/-- C9 as amended: for every response whose event stream is well nested (tags
matching, one root, no attribute name twice in a tag, the names being XML names)
and whose character data nowhere holds `]]>`, the bytes written by `serialize` are
a well-formed document: tags balance with matching names, attribute values hold
no raw `<`, `&` or `"`, character data no raw `<` or `&`, every `&` starts a
predefined entity reference.  When every page that is serialized is such a
response, the complete output of a harvest that ends, the pages wrapped in the
`records` element, is one well-formed document. -/
theorem serialize_well_formed (cfg : Config) (pages : List Response) (toks : List Str)
    (last : Response) (rest : List Response)
    (hpages : List.Forall₂ (fun r t => returns_token cfg.verbose r (some t)) pages toks)
    (hlast : returns_token cfg.verbose last none)
    (hser : ∀ body, some body ∈ pages ++ [last] →
      0 < body.ns.events.countP is_oai_record_start →
      serializable body.plain.events = true) :
    (∀ es, serializable es = true → xml_well_formed (serialize_events [] es) = true) ∧
    ∃ w, main cfg (pages ++ last :: rest) = .exit_success w ∧
      xml_well_formed w.handle = true := by
  refine ⟨serialized_page_well_formed, ?_⟩
  obtain ⟨w, hw, _, hh⟩ := harvest_loop_run cfg last rest hlast pages toks
    (build_request_url cfg.baseUrl cfg.metadataPrefix cfg.from_ cfg.until_ cfg.set)
    { handle := RECORDS_OPEN, stderr := [], fetched := [] } hpages
  refine ⟨w, hw, ?_⟩
  rw [hh]
  have hflat : (pages ++ [last]).flatMap page_output
      = ((pages ++ [last]).map page_output).flatten := by
    simp [List.flatMap]
  rw [show ({ handle := RECORDS_OPEN, stderr := [], fetched := [] } : World).handle
    = RECORDS_OPEN from rfl, hflat]
  apply wrapped_pages_well_formed
  intro out hout
  obtain ⟨r, hr, rfl⟩ := List.mem_map.1 hout
  apply page_output_serializable
  intro body hb hrec
  exact hser body (by rw [← hb]; exact hr) hrec

/-- Witness of C9 as amended: two pages with a record each. -/
theorem serialize_well_formed_witness :
    (∀ es, serializable es = true → xml_well_formed (serialize_events [] es) = true) ∧
    ∃ w, main example_config
        ([some (token_body "abc123".toList)] ++ some final_body :: []) = .exit_success w ∧
      xml_well_formed w.handle = true :=
  serialize_well_formed example_config [some (token_body "abc123".toList)] ["abc123".toList]
    (some final_body) []
    (List.Forall₂.cons
      (returns_token_of true (token_body "abc123".toList)
        { docinfo := { nr_of_errors := 0, nr_of_records := 1, errors := [],
                       token := some "abc123".toList },
          cdata := { size := 0, data := "abc123".toList }, error := none, state := 0 }
        (by decide) rfl rfl)
      List.Forall₂.nil)
    (returns_token_of true final_body
      { docinfo := { nr_of_errors := 0, nr_of_records := 1, errors := [], token := none },
        cdata := { size := 0, data := [] }, error := none, state := 0 }
      (by decide) rfl rfl)
    (by
      intro body hmem _
      simp only [List.singleton_append, List.mem_cons, Option.some.injEq, List.mem_singleton,
        List.not_mem_nil, or_false] at hmem
      rcases hmem with rfl | rfl <;> decide)

/-- C11: `build_resume_url` returns the base, `?verb=ListRecords&resumptionToken=`
and the token, copied as it is; with the empty token the URL ends in
`resumptionToken=`; the parameters of the initial request are no argument of the
function and do not occur in what it adds. -/
theorem build_resume_url_format (baseUrl resumptionToken : Str) :
    build_resume_url baseUrl resumptionToken =
      baseUrl ++ "?verb=ListRecords&resumptionToken=".toList ++ resumptionToken ∧
    build_resume_url baseUrl [] = baseUrl ++ "?verb=ListRecords&resumptionToken=".toList ∧
    build_resume_url [] [] = "?verb=ListRecords&resumptionToken=".toList ∧
    (build_resume_url baseUrl resumptionToken).length =
      baseUrl.length + 34 + resumptionToken.length := by
  refine ⟨rfl, by simp [build_resume_url], by simp [build_resume_url], ?_⟩
  simp [build_resume_url]
  omega

/-- C14: for a buffer whose length is within its block, `buffer_append` leaves the
content followed by the appended bytes, the length being the sum of the lengths,
and the length stays within the block; after `make_buffer` and appends of
`s_1 .. s_n` the content is `s_1 ++ .. ++ s_n`; the block that `buffer_to_string`
returns is the content followed by a NUL, and the function, which has the buffer
as a constant argument, returns nothing else; the buffers made by `make_buffer`,
`buffer_from_string` and `reset_buffer` have their length within their block. -/
theorem buffer_append_content (b : buffer_t) (s : Str) (hb : buffer_valid b) :
    buffer_content (buffer_append b s) = buffer_content b ++ s ∧
    (buffer_content b).length = b.size ∧
    (buffer_append b s).size = b.size + s.length ∧
    buffer_valid (buffer_append b s) ∧
    buffer_append b [] = { b with data := buffer_content b } ∧
    (∀ chunks : List Str,
      buffer_content (chunks.foldl buffer_append make_buffer) = chunks.flatten ∧
      (chunks.foldl buffer_append make_buffer).size = chunks.flatten.length) ∧
    buffer_to_string_block b = buffer_content b ++ [Char.ofNat 0] ∧
    buffer_to_string b = buffer_content b ∧
    (buffer_valid make_buffer ∧ buffer_valid (reset_buffer b) ∧
      buffer_content (reset_buffer b) = [] ∧ buffer_valid (buffer_from_string s) ∧
      buffer_content (buffer_from_string s) = s) := by
  have happ : ∀ (b : buffer_t) (s : Str), buffer_valid b →
      buffer_content (buffer_append b s) = buffer_content b ++ s := fun b s h =>
    buffer_to_string_append b s h
  have hfold : ∀ (chunks : List Str) (b : buffer_t), buffer_valid b →
      buffer_content (chunks.foldl buffer_append b) = buffer_content b ++ chunks.flatten ∧
      (chunks.foldl buffer_append b).size = b.size + chunks.flatten.length := by
    intro chunks
    induction chunks with
    | nil => intro b _; simp
    | cons c cs ih =>
      intro b h
      obtain ⟨h1, h2⟩ := ih (buffer_append b c) (buffer_append_ok b c h)
      simp only [List.foldl_cons, h1, h2, happ b c h]
      simp [buffer_append, Nat.add_assoc]
  refine ⟨happ b s hb, ?_, rfl, buffer_append_ok b s hb, ?_, ?_, rfl, rfl, ?_⟩
  rotate_left 3
  · simp [buffer_valid, make_buffer, reset_buffer, buffer_content, buffer_from_string]
  · simpa [buffer_content] using hb
  · simp [buffer_append, buffer_content]
  · intro chunks
    have := hfold chunks make_buffer (by simp [buffer_valid, make_buffer])
    simpa [buffer_content, make_buffer] using this

/-- Witness of C14: an append to a buffer that was reset over old bytes. -/
theorem buffer_append_content_witness :
    buffer_valid stale_buffer ∧
    buffer_content stale_buffer = [] ∧
    buffer_content (buffer_append stale_buffer "new".toList) = "new".toList ∧
    buffer_content (buffer_append stale_buffer "new".toList)
      = buffer_content stale_buffer ++ "new".toList :=
  ⟨by unfold buffer_valid; decide, by decide, by decide,
   (buffer_append_content stale_buffer "new".toList (by unfold buffer_valid; decide)).1⟩

/-- C16: in a parser state whose capture mode is NONE, `parse_cdata_callback`
returns the state as it is, for every character data; as long as no OAI `error` or
`resumptionToken` element starts, no event changes the scratch buffer, the pending
error, the errors, the token or the mode, and a `record` element with text inside
changes the record count only. -/
theorem cdata_outside_capture (p : pstate_t) (str : Str)
    (h : p.state = PSTATE_CAPTURE_NONE) :
    parse_cdata_callback p str = p ∧
    (∀ es, no_capture_start es = true →
      ∃ q, parse_events p es = some q ∧ q.cdata = p.cdata ∧ q.error = p.error ∧
        q.docinfo.errors = p.docinfo.errors ∧ q.docinfo.token = p.docinfo.token ∧
        q.state = PSTATE_CAPTURE_NONE) ∧
    (∀ atts name,
      parse_events p [.startElement OAI_RECORD atts, .characterData str, .endElement name] =
        some { p with docinfo := { p.docinfo with
                 nr_of_records := int_add p.docinfo.nr_of_records 1 } }) := by
  refine ⟨by simp [parse_cdata_callback, h, PSTATE_CAPTURE_NONE], ?_, ?_⟩
  · intro es hes
    obtain ⟨q, hq, hqs, hqc, hqe, hqr, _, hqt⟩ := idle_run es p h hes
    exact ⟨q, hq, hqc, hqe, hqr, hqt, hqs⟩
  · intro atts name
    simp [parse_events, parse_event, parse_element_start_callback, parse_cdata_callback,
      parse_element_end_callback, h, PSTATE_CAPTURE_NONE, PSTATE_CAPTURE_TOKEN,
      PSTATE_CAPTURE_ERROR]

/-- Witness of C16: text behind an earlier error and token, scratch block not
empty, is dropped. -/
theorem cdata_outside_capture_witness :
    history_state.state = PSTATE_CAPTURE_NONE ∧
    parse_events make_pstate history_events = some history_state ∧
    parse_cdata_callback history_state "text".toList = history_state :=
  ⟨rfl, by decide, (cdata_outside_capture history_state "text".toList rfl).1⟩

/-- C17: after the callbacks for any sequence of events, begun in the initial
state of `parse`, the capture mode is NONE, ERROR or TOKEN, the pending error is
not null when the mode is ERROR, and `parse_element_end_callback` does not
dereference a null pointer; no sequence of events makes the parser do so. -/
theorem parser_state_safe (evs : List XMLEvent) :
    ∃ p, parse_events make_pstate evs = some p ∧
      (p.state = PSTATE_CAPTURE_NONE ∨ p.state = PSTATE_CAPTURE_ERROR ∨
        p.state = PSTATE_CAPTURE_TOKEN) ∧
      (p.state = PSTATE_CAPTURE_ERROR → p.error ≠ none) ∧
      (∀ name, parse_element_end_callback p name ≠ none) ∧
      reachable p := by
  obtain ⟨p, hp, hinv⟩ := parse_events_inv evs make_pstate make_pstate_inv
  refine ⟨p, hp, hinv.1, hinv.2.1, ?_, ⟨evs, hp⟩⟩
  intro name
  obtain ⟨q, hq, _⟩ := parse_event_inv p (.endElement name) hinv
  simp only [parse_event] at hq
  rw [hq]
  simp

/-- Witness of C17: a capture of an error left open, not well nested. -/
theorem parser_state_safe_witness :
    ∃ p, parse_events make_pstate
        [.endElement OAI_ERROR, .startElement OAI_TOKEN [], .startElement OAI_ERROR [],
         .characterData "x".toList] = some p ∧
      (p.state = PSTATE_CAPTURE_NONE ∨ p.state = PSTATE_CAPTURE_ERROR ∨
        p.state = PSTATE_CAPTURE_TOKEN) ∧
      (p.state = PSTATE_CAPTURE_ERROR → p.error ≠ none) ∧
      (∀ name, parse_element_end_callback p name ≠ none) ∧
      reachable p :=
  parser_state_safe _

/-- C18: after the callbacks for any sequence of events, begun in the initial
state of `parse`, the scratch buffer has length zero whenever the capture mode is
NONE; so a capture of a token or of an error that begins in mode NONE and runs up
to the next end tag, no other capture starting in between, gives as token or as
message of the last error exactly the character data received since it began,
whatever was captured or seen before. -/
theorem scratch_buffer_clean (evs : List XMLEvent) :
    ∃ p, parse_events make_pstate evs = some p ∧
      (p.state = PSTATE_CAPTURE_NONE →
        p.cdata.size = 0 ∧
        ∀ atts body name, body.all continues_capture = true →
          (∃ q, parse_events p (.startElement OAI_TOKEN atts :: body ++ [.endElement name])
              = some q ∧
            q.docinfo.token = some (character_content body)) ∧
          (∃ q e, parse_events p (.startElement OAI_ERROR atts :: body ++ [.endElement name])
              = some q ∧
            q.docinfo.errors.getLast? = some e ∧
            e.message = some (character_content body))) := by
  obtain ⟨p, hp, _, _, hzero, hbuf⟩ := parse_events_inv evs make_pstate make_pstate_inv
  refine ⟨p, hp, fun hs => ⟨hzero hs, ?_⟩⟩
  intro atts body name hbody
  have hz := hzero hs
  have hempty : buffer_to_string p.cdata = [] := by simp [buffer_to_string, hz]
  constructor
  · have h1 : parse_element_start_callback p OAI_TOKEN atts
        = { p with state := PSTATE_CAPTURE_TOKEN } := by
      have n1 : OAI_TOKEN ≠ OAI_RECORD := by decide
      have n2 : OAI_TOKEN ≠ OAI_ERROR := by decide
      unfold parse_element_start_callback
      rw [if_neg n1, if_neg n2, if_pos rfl]
    obtain ⟨q, hq, hqs, _, hqb, _, _, _, _⟩ :=
      capture_run body { p with state := PSTATE_CAPTURE_TOKEN }
        (by simp [PSTATE_CAPTURE_TOKEN]) hbuf hbody
    refine ⟨{ q with
      docinfo := { q.docinfo with token := some (buffer_to_string q.cdata) }
      cdata := reset_buffer q.cdata
      state := PSTATE_CAPTURE_NONE }, ?_, ?_⟩
    · have hqs2 : q.state = PSTATE_CAPTURE_TOKEN := hqs
      simp [parse_events, parse_event, h1, parse_events_append, hq, parse_element_end_callback,
        hqs2]
    · simp only [hqb, hempty, List.nil_append]
  · have h1 : parse_element_start_callback p OAI_ERROR atts
        = { p with
            error := some (atts.foldl parse_error_attribute make_error)
            state := PSTATE_CAPTURE_ERROR } := by
      have n1 : OAI_ERROR ≠ OAI_RECORD := by decide
      unfold parse_element_start_callback
      rw [if_neg n1, if_pos rfl]
    obtain ⟨q, hq, hqs, hqe, hqb, _, _, _, _⟩ :=
      capture_run body
        { p with
          error := some (atts.foldl parse_error_attribute make_error)
          state := PSTATE_CAPTURE_ERROR }
        (by simp [PSTATE_CAPTURE_ERROR]) hbuf hbody
    have hqs2 : q.state = PSTATE_CAPTURE_ERROR := hqs
    have hqe2 : q.error = some (atts.foldl parse_error_attribute make_error) := hqe
    refine ⟨{ q with
      docinfo := docinfo_add_error q.docinfo
        { atts.foldl parse_error_attribute make_error with
          message := some (buffer_to_string q.cdata) }
      cdata := reset_buffer q.cdata
      error := none
      state := PSTATE_CAPTURE_NONE },
      { atts.foldl parse_error_attribute make_error with
          message := some (buffer_to_string q.cdata) }, ?_, ?_, ?_⟩
    · have hsplit : parse_events p
            (.startElement OAI_ERROR atts :: body ++ [.endElement name])
          = (parse_events
              { p with
                error := some (atts.foldl parse_error_attribute make_error)
                state := PSTATE_CAPTURE_ERROR } body).bind
            (fun q => parse_events q [.endElement name]) := by
        rw [List.cons_append, parse_events_start, h1, parse_events_append]
      rw [hsplit, hq]
      simp [parse_events, parse_event, parse_element_end_callback, hqs2, hqe2,
        PSTATE_CAPTURE_ERROR, PSTATE_CAPTURE_TOKEN]
    · simp [docinfo_add_error]
    · simp only [hqb, hempty, List.nil_append]

/-- Witness of C18: behind an error, a token and a record with text the next
capture holds its own character data only. -/
theorem scratch_buffer_clean_witness :
    parse_events make_pstate history_events = some history_state ∧
    history_state.cdata.data = "old token".toList ∧
    parse_events history_state
        [.startElement OAI_ERROR [], .characterData "new ".toList,
         .startElement OAI_RECORD [], .characterData "text".toList, .endElement OAI_RECORD]
      = some { history_state with
          docinfo := { history_state.docinfo with
            nr_of_errors := 2, nr_of_records := 2,
            errors := history_state.docinfo.errors ++
              [{ code := none, message := some "new text".toList }] },
          cdata := { size := 0, data := "new text".toList } } ∧
    ∃ p, parse_events make_pstate history_events = some p ∧
      (p.state = PSTATE_CAPTURE_NONE →
        p.cdata.size = 0 ∧
        ∀ atts body name, body.all continues_capture = true →
          (∃ q, parse_events p (.startElement OAI_TOKEN atts :: body ++ [.endElement name])
              = some q ∧
            q.docinfo.token = some (character_content body)) ∧
          (∃ q e, parse_events p (.startElement OAI_ERROR atts :: body ++ [.endElement name])
              = some q ∧
            q.docinfo.errors.getLast? = some e ∧
            e.message = some (character_content body))) :=
  ⟨by decide, rfl, by decide, scratch_buffer_clean history_events⟩

/-- C19: the bytes `serialize_write_escape` writes for `a ++ b` are those it
writes for `a` followed by those it writes for `b`, and it writes nothing for the
empty sequence; so character data delivered in two events is written as the same
bytes as when it is delivered in one, on whatever the stream holds. -/
theorem serialize_write_escape_chunks (file a b : Str) :
    serialize_write_escape file (a ++ b)
      = serialize_write_escape (serialize_write_escape file a) b ∧
    serialize_write_escape [] (a ++ b)
      = serialize_write_escape [] a ++ serialize_write_escape [] b ∧
    serialize_write_escape file [] = file ∧
    serialize_cdata_callback (serialize_cdata_callback file a) b
      = serialize_cdata_callback file (a ++ b) ∧
    serialize_events file [.characterData a, .characterData b]
      = serialize_events file [.characterData (a ++ b)] := by
  have h1 : serialize_write_escape file (a ++ b)
      = serialize_write_escape (serialize_write_escape file a) b := by
    simp [serialize_write_escape, List.foldl_append]
  refine ⟨h1, ?_, rfl, h1.symm, ?_⟩
  · rw [write_escape_eq, write_escape_eq a, write_escape_eq b]
    simp [escape]
  · simp only [serialize_events, List.foldl_cons, List.foldl_nil, serialize_event,
      serialize_cdata_callback]
    exact h1.symm

/-- C20: the bytes `serialize_write_escape` writes for `s` hold no `<`, no `"`
and no apostrophe; wherever they hold `&`, one of the references `&lt;` `&amp;`
`&quot;` `&apos;` begins there; decoding the four references gives back `s`; so two
byte sequences with the same output are equal. -/
theorem serialize_write_escape_lossless (s : Str) :
    (∀ c ∈ serialize_write_escape [] s, c ≠ '<' ∧ c ≠ '"' ∧ c ≠ Char.ofNat 39) ∧
    (∀ t, t <:+ serialize_write_escape [] s → t.head? = some '&' →
      ∃ r ∈ REFERENCES, r <+: t) ∧
    unescape (serialize_write_escape [] s) = s ∧
    (∀ s2, serialize_write_escape [] s = serialize_write_escape [] s2 → s = s2) ∧
    (∀ file, serialize_write_escape file s = file ++ serialize_write_escape [] s) := by
  have hout : ∀ x : Str, serialize_write_escape [] x = escape x := fun x => by
    simpa using write_escape_eq x []
  refine ⟨?_, ?_, ?_, ?_, ?_⟩
  · intro c hc
    rw [hout] at hc
    exact escape_clean s c hc
  · intro t ht hamp
    rw [hout] at ht
    exact escape_references s t ht hamp
  · rw [hout]; exact unescape_escape s
  · intro s2 h
    have := congrArg unescape h
    rwa [hout, hout, unescape_escape, unescape_escape] at this
  · intro file
    rw [write_escape_eq, hout]

/-- Witness of C20: text that already looks escaped is escaped once more and
decoded back. -/
theorem serialize_write_escape_lossless_witness :
    serialize_write_escape [] "a<b&lt;c\"d'e>".toList
      = "a&lt;b&amp;lt;c&quot;d&apos;e>".toList ∧
    unescape "a&lt;b&amp;lt;c&quot;d&apos;e>".toList = "a<b&lt;c\"d'e>".toList ∧
    unescape (serialize_write_escape [] "a<b&lt;c\"d'e>".toList) = "a<b&lt;c\"d'e>".toList :=
  ⟨by decide, by decide, (serialize_write_escape_lossless "a<b&lt;c\"d'e>".toList).2.2.1⟩

/-- C12: for a response on which `parse` returns the ResponseInfo `d`,
`fetch_records` writes one protocol-error line per entry of `d.errors`, in order,
behind the line of the fetch, and goes on: what it returns, whether it ends the
process, and the output stream are those for a response with the same body to
re-serialize whose ResponseInfo has the same record count and token and no
errors, and the other log lines are the same; with records the body is written
out, and with a token the token is returned, errors or not. -/
theorem protocol_errors_non_fatal (verbose : Bool) (body body0 : body_t)
    (d d0 : docinfo_t) (url : Str) (w : World)
    (hd : parse body.ns w = .ret d w) (hd0 : parse body0.ns w = .ret d0 w)
    (hev : body0.plain.events = body.plain.events)
    (hst : body0.plain.status_ok = body.plain.status_ok)
    (hrec : d0.nr_of_records = d.nr_of_records) (htok : d0.token = d.token)
    (herr : d0.errors = []) :
    (fetch_records verbose (some body) url w).world.stderr =
      (log_info verbose (.info_get url) w).stderr ++
        d.errors.map (fun e => LogLine.error_protocol e.code e.message) ++
        ((fetch_records verbose (some body0) url w).world.stderr).drop
          (log_info verbose (.info_get url) w).stderr.length ∧
    (fetch_records verbose (some body) url w).returned
      = (fetch_records verbose (some body0) url w).returned ∧
    (fetch_records verbose (some body) url w).failed
      = (fetch_records verbose (some body0) url w).failed ∧
    (fetch_records verbose (some body) url w).world.handle
      = (fetch_records verbose (some body0) url w).world.handle ∧
    (0 < d.nr_of_records →
      (fetch_records verbose (some body) url w).world.handle
        = serialize_events w.handle body.plain.events) ∧
    (∀ t, d.token = some t → (0 < d.nr_of_records → body.plain.status_ok = true) →
      (fetch_records verbose (some body) url w).returned = some (some t)) := by
  obtain ⟨_, hn, hall⟩ := parse_ret_docinfo body.ns d w hd
  obtain ⟨_, hn0, hall0⟩ := parse_ret_docinfo body0.ns d0 w hd0
  have hd0eq : d0 = { d with nr_of_errors := 0, errors := [] } := by
    cases d0; cases d
    simp only [docinfo_t.mk.injEq] at *
    subst hrec htok herr
    simpa using hn0
  rw [fetch_records_parsed verbose body url w d hall,
    fetch_records_parsed verbose body0 url w d0 hall0,
    after_parse_congr verbose body body0 d0 _ hev hst, hd0eq]
  obtain ⟨e1, e2, e3, _, e5⟩ := after_parse_errors verbose body d (after_fetch verbose url w) hn
  have hw : (if 0 < d.nr_of_errors then log_protocol_errors d (after_fetch verbose url w)
      else after_fetch verbose url w)
      = { after_fetch verbose url w with
          stderr := (after_fetch verbose url w).stderr ++ d.errors.map protocol_error_line } := by
    split_ifs with h
    · exact log_protocol_errors_eq d _ hn
    · have : d.errors = [] := by
        have : (d.errors.length : Int) ≤ 0 := by rw [← hn]; omega
        exact List.eq_nil_of_length_eq_zero (by omega)
      simp [this]
  refine ⟨e5, e1, e2, e3, ?_, ?_⟩
  · intro hpos
    simp only [after_parse, hw, hpos, if_true, serialize]
    cases body.plain.status_ok <;> cases d.token <;> cases verbose <;>
      simp [log_info, log_error, Step.world, after_fetch]
  · intro t ht hplain
    simp only [after_parse, hw, ht, serialize]
    by_cases hpos : 0 < d.nr_of_records
    · simp [hpos, hplain hpos, Step.returned]
    · simp [hpos, Step.returned]

/-- Witness of C12: a page with two errors, a record and a token, beside the same
page without the errors. -/
theorem protocol_errors_non_fatal_witness :
    (fetch_records false (some errors_body) [] world0).world.stderr =
      [.error_protocol (some "badArgument".toList) (some "first".toList),
       .error_protocol none (some "second".toList)] ∧
    (fetch_records false (some errors_body) [] world0).returned = some (some "t1".toList) ∧
    (fetch_records false (some errors_body) [] world0).world.handle = "<r></r>".toList ∧
    (fetch_records false (some errors_body) [] world0).returned
      = (fetch_records false (some errors_removed_body) [] world0).returned :=
  ⟨by decide, by decide, by decide,
   (protocol_errors_non_fatal false errors_body errors_removed_body
      { nr_of_errors := 2, nr_of_records := 1,
        errors := [{ code := some "badArgument".toList, message := some "first".toList },
                   { code := none, message := some "second".toList }],
        token := some "t1".toList }
      { nr_of_errors := 0, nr_of_records := 1, errors := [], token := some "t1".toList }
      [] world0 (by decide) (by decide) rfl rfl rfl rfl rfl).2.1⟩

/-- C13: when, behind pages that returned tokens, the transport fails for a fetch
or the XML parser reports an error for the page, in `parse` or in `serialize` on
the same document, the harvest ends with a failure exit status, whatever
responses would follow; that fetch is the last one; after a parser error the last
log line is the parse error; and neither `parse` nor `fetch_records` returns a
ResponseInfo or a token for that page. -/
theorem fatal_errors_stop (cfg : Config) (pre : List Response) (toks : List Str)
    (bad : Response) (rest : List Response)
    (hpre : List.Forall₂ (fun r t => returns_token cfg.verbose r (some t)) pre toks)
    (hdoc : ∀ body, bad = some body → one_document body = true)
    (hbad : fetch_fails bad = true) :
    ∃ w, main cfg (pre ++ bad :: rest) = .exit_failure w ∧
      w.fetched.length = pre.length + 1 ∧
      (bad ≠ none → w.stderr.getLast? = some .error_parse) ∧
      (∀ url w0, (fetch_records cfg.verbose bad url w0).returned = none ∧
        (fetch_records cfg.verbose bad url w0).failed = true) ∧
      (∀ body, bad = some body →
        ∀ w0, (parse body.ns w0).returned = none ∧ (parse body.ns w0).failed = true) := by
  have hfat := fetch_fails_fatal bad hdoc hbad
  obtain ⟨url2, w2, h2, h2f, _⟩ := harvest_loop_prefix cfg pre toks
    (build_request_url cfg.baseUrl cfg.metadataPrefix cfg.from_ cfg.until_ cfg.set)
    { handle := RECORDS_OPEN, stderr := [], fetched := [] } hpre
  obtain ⟨w3, h3, h3f, h3e⟩ := fetch_records_fatal cfg.verbose bad url2 w2 hfat
  refine ⟨w3, ?_, ?_, h3e, ?_, ?_⟩
  · simp only [main]
    rw [h2 (bad :: rest)]
    simp [harvest_loop, h3]
  · rw [h3f]
    simp only [List.length_append, List.length_singleton, h2f]
    simp
  · intro url w0
    obtain ⟨w4, h4, _, _⟩ := fetch_records_fatal cfg.verbose bad url w0 hfat
    rw [h4]
    exact ⟨rfl, rfl⟩
  · intro body hb w0
    have hns := parser_error_in_parse body (hdoc body hb) (by simpa [hb, fetch_fails] using hbad)
    obtain ⟨q, hq, _⟩ := make_pstate_records body.ns
    simp [parse, hq, hns, Step.returned, Step.failed]

/-- Witness of C13: behind one page with a token, a page on which the parser
reports an error, followed by a page that is not fetched; and the same with a
transport failure. -/
theorem fatal_errors_stop_witness :
    one_document parse_error_body = true ∧ fetch_fails (some parse_error_body) = true ∧
    main { example_config with verbose := false }
        ([some (token_body "abc".toList)] ++ some parse_error_body :: [some final_body]) =
      .exit_failure
        { handle := RECORDS_OPEN ++ page_output (some (token_body "abc".toList)),
          stderr := [.error_parse],
          fetched :=
            ["http://example.org/oai?verb=ListRecords&metadataPrefix=oai_dc".toList,
             "http://example.org/oai?verb=ListRecords&resumptionToken=abc".toList] } ∧
    main { example_config with verbose := false }
        ([some (token_body "abc".toList)] ++ none :: [some final_body]) =
      .exit_failure
        { handle := RECORDS_OPEN ++ page_output (some (token_body "abc".toList)),
          stderr := [],
          fetched :=
            ["http://example.org/oai?verb=ListRecords&metadataPrefix=oai_dc".toList,
             "http://example.org/oai?verb=ListRecords&resumptionToken=abc".toList] } ∧
    ∃ w, main example_config
        ([some (token_body "abc".toList)] ++ some parse_error_body :: [some final_body])
          = .exit_failure w ∧
      w.fetched.length = [some (token_body "abc".toList)].length + 1 ∧
      (some parse_error_body ≠ none → w.stderr.getLast? = some .error_parse) ∧
      (∀ url w0,
        (fetch_records example_config.verbose (some parse_error_body) url w0).returned = none ∧
        (fetch_records example_config.verbose (some parse_error_body) url w0).failed = true) ∧
      (∀ body, some parse_error_body = some body →
        ∀ w0, (parse body.ns w0).returned = none ∧ (parse body.ns w0).failed = true) :=
  ⟨rfl, rfl, by decide, by decide,
   fatal_errors_stop example_config [some (token_body "abc".toList)] ["abc".toList]
     (some parse_error_body) [some final_body]
     (List.Forall₂.cons
       (returns_token_of true (token_body "abc".toList)
         { docinfo := { nr_of_errors := 0, nr_of_records := 1, errors := [],
                        token := some "abc".toList },
           cdata := { size := 0, data := "abc".toList }, error := none, state := 0 }
         (by decide) rfl rfl)
       List.Forall₂.nil)
     (fun body hb => by cases hb; rfl)
     rfl⟩


/-- C15: the loop has no bound on its iterations.  When every response of a
server makes `fetch_records` return a token, then for every `n` the process has
made `n + 1` fetches on the first `n + 1` responses and is about to fetch again:
it has not ended, and the output holds the opening tag and the pages, no closing
`</records>` behind them.  And `main` ends with success only behind a page for
which `fetch_records` returned no token, the closing tag being written then. -/
theorem harvest_loop_unbounded (cfg : Config) (server : Nat → Response)
    (hserver : ∀ i, ∃ t, returns_token cfg.verbose (server i) (some t)) (n : Nat) :
    (∃ url w, main cfg ((List.range (n + 1)).map server) = .pending url w ∧
      w.fetched.length = n + 1 ∧
      w.handle = RECORDS_OPEN ++ ((List.range (n + 1)).map server).flatMap page_output) ∧
    (∀ rs w, main cfg rs = .exit_success w →
      ∃ pre last rest url w1 w2, rs = pre ++ last :: rest ∧
        fetch_records cfg.verbose last url w1 = .ret none w2 ∧
        w.handle = w2.handle ++ RECORDS_CLOSE) := by
  constructor
  · obtain ⟨toks, htoks⟩ := tokens_of_pages cfg.verbose ((List.range (n + 1)).map server)
      (by
        intro r hr
        obtain ⟨i, _, rfl⟩ := List.mem_map.1 hr
        exact hserver i)
    obtain ⟨url2, w2, h2, h2f, h2h⟩ := harvest_loop_prefix cfg _ toks
      (build_request_url cfg.baseUrl cfg.metadataPrefix cfg.from_ cfg.until_ cfg.set)
      { handle := RECORDS_OPEN, stderr := [], fetched := [] } htoks
    refine ⟨url2, w2, ?_, ?_, h2h⟩
    · have := h2 []
      simp only [List.append_nil] at this
      simp only [main]
      rw [this]
      rfl
    · simpa using h2f
  · intro rs w h
    exact harvest_loop_success cfg rs _ _ w h

/-- Witness of C15: a server that answers every request with the token `more`,
after four fetches. -/
theorem harvest_loop_unbounded_witness :
    (∃ url w, main example_config ((List.range (3 + 1)).map endless_server) = .pending url w ∧
      w.fetched.length = 3 + 1 ∧
      w.handle = RECORDS_OPEN ++
        ((List.range (3 + 1)).map endless_server).flatMap page_output) ∧
    (∀ rs w, main example_config rs = .exit_success w →
      ∃ pre last rest url w1 w2, rs = pre ++ last :: rest ∧
        fetch_records example_config.verbose last url w1 = .ret none w2 ∧
        w.handle = w2.handle ++ RECORDS_CLOSE) :=
  harvest_loop_unbounded example_config endless_server
    (fun _ => ⟨"more".toList,
      returns_token_of true (token_body "more".toList)
        { docinfo := { nr_of_errors := 0, nr_of_records := 1, errors := [],
                       token := some "more".toList },
          cdata := { size := 0, data := "more".toList }, error := none, state := 0 }
        (by decide) rfl rfl⟩)
    3

end OaiClient
